import Mathlib

/-!
Verification development for the AI-lab test-execution orchestrator.

Shallow embedding of the orchestration core: pricing/cost engine
(`src/lib/pricing.ts`), rate limiter (`src/lib/rate-limit.ts`), secret
codec (`src/lib/encryption.ts`), variable substitution and the test
runner (`src/lib/test-runner.ts`).  External collaborators (the Prisma
store, vendor HTTP adapters, the ajv JSON-schema validator, Node's
crypto library) are modelled as explicit state / function parameters.
JavaScript numbers used for money are modelled as exact rationals;
token counts are naturals.
-/

namespace AILab

/-! ## Pricing / cost engine (src/lib/pricing.ts) -/

structure ModelPricing where
  inputPer1M : ℚ
  outputPer1M : ℚ
deriving DecidableEq, Repr

structure ProviderConfig where
  name : String
  displayName : String
  models : List (String × ModelPricing)
  defaultModel : String
deriving DecidableEq, Repr

/-- The static price table `PROVIDER_CONFIGS` of `src/lib/pricing.ts`
(JS record modelled as an association list in key order). -/
def PROVIDER_CONFIGS : List (String × ProviderConfig) := [
  ("openai",
    { name := "openai", displayName := "OpenAI", defaultModel := "gpt-4o",
      models := [
        ("gpt-4o", ⟨2.50, 10.00⟩),
        ("gpt-4o-mini", ⟨0.15, 0.60⟩),
        ("gpt-4-turbo", ⟨10.00, 30.00⟩),
        ("gpt-4", ⟨30.00, 60.00⟩),
        ("gpt-3.5-turbo", ⟨0.50, 1.50⟩),
        ("o1", ⟨15.00, 60.00⟩),
        ("o1-mini", ⟨3.00, 12.00⟩)] }),
  ("anthropic",
    { name := "anthropic", displayName := "Anthropic",
      defaultModel := "claude-sonnet-4-20250514",
      models := [
        ("claude-sonnet-4-20250514", ⟨3.00, 15.00⟩),
        ("claude-opus-4-20250514", ⟨15.00, 75.00⟩),
        ("claude-3-5-sonnet-20241022", ⟨3.00, 15.00⟩),
        ("claude-3-5-haiku-20241022", ⟨0.80, 4.00⟩),
        ("claude-3-opus-20240229", ⟨15.00, 75.00⟩),
        ("claude-3-sonnet-20240229", ⟨3.00, 15.00⟩),
        ("claude-3-haiku-20240307", ⟨0.25, 1.25⟩)] }),
  ("google",
    { name := "google", displayName := "Google Gemini",
      defaultModel := "gemini-1.5-pro",
      models := [
        ("gemini-1.5-pro", ⟨1.25, 5.00⟩),
        ("gemini-1.5-flash", ⟨0.075, 0.30⟩),
        ("gemini-1.5-flash-8b", ⟨0.0375, 0.15⟩),
        ("gemini-2.0-flash-exp", ⟨0.10, 0.40⟩)] }),
  ("deepseek",
    { name := "deepseek", displayName := "DeepSeek",
      defaultModel := "deepseek-chat",
      models := [
        ("deepseek-chat", ⟨0.14, 0.28⟩),
        ("deepseek-reasoner", ⟨0.55, 2.19⟩)] }),
  ("local",
    { name := "local", displayName := "Local/OpenAI-Compatible",
      defaultModel := "default",
      models := [("default", ⟨0.00, 0.00⟩)] })]

structure CostResult where
  cost : ℚ
  isEstimated : Bool
deriving DecidableEq, Repr

/-- Function `calculateCost` of `src/lib/pricing.ts`: exact rate for a known
provider/model entry, the provider's default-model rate for an unknown
model, and the flat `$10`-per-million heuristic for an unknown provider
(or a provider whose default model is itself missing from the table). -/
def calculateCost (provider model : String) (inputTokens outputTokens : ℕ) :
    CostResult :=
  match PROVIDER_CONFIGS.lookup provider with
  | none =>
      { cost := ((inputTokens : ℚ) + (outputTokens : ℚ)) * 0.00001,
        isEstimated := true }
  | some providerConfig =>
      match providerConfig.models.lookup model with
      | none =>
          match providerConfig.models.lookup providerConfig.defaultModel with
          | some defaultPricing =>
              { cost := (inputTokens : ℚ) / 1000000 * defaultPricing.inputPer1M
                      + (outputTokens : ℚ) / 1000000 * defaultPricing.outputPer1M,
                isEstimated := true }
          | none =>
              { cost := ((inputTokens : ℚ) + (outputTokens : ℚ)) * 0.00001,
                isEstimated := true }
      | some modelPricing =>
          { cost := (inputTokens : ℚ) / 1000000 * modelPricing.inputPer1M
                  + (outputTokens : ℚ) / 1000000 * modelPricing.outputPer1M,
            isEstimated := false }

/-- Function `estimateTokenCount` of `src/lib/pricing.ts`: `Math.ceil(len/4)`
with the empty string short-circuited to `0`. -/
def estimateTokenCount (text : String) : ℕ :=
  if text = "" then 0 else (text.length + 3) / 4

/-! ## Rate limiter (src/lib/rate-limit.ts) -/

def MAX_RUNS_PER_MINUTE : ℕ := 10

structure RateCheck where
  allowed : Bool
  remaining : ℕ
deriving DecidableEq, Repr

/-- The persisted `RateLimit` rows: one counter per `(userId, windowKey)`. -/
abbrev RateTable := List ((String × String) × ℕ)

/-- The stored count for `(userId, windowKey)` (0 when the row is absent). -/
def rateCount (t : RateTable) (userId windowKey : String) : ℕ :=
  match t with
  | [] => 0
  | e :: rest => if e.1 = (userId, windowKey) then e.2 else rateCount rest userId windowKey

/-- The store's atomic upsert: increment the row for `(userId, windowKey)`,
creating it with count 1 when absent; returns the resulting count. -/
def rateUpsert (t : RateTable) (userId windowKey : String) : ℕ × RateTable :=
  match t with
  | [] => (1, [((userId, windowKey), 1)])
  | e :: rest =>
      if e.1 = (userId, windowKey) then
        (e.2 + 1, (e.1, e.2 + 1) :: rest)
      else
        let p := rateUpsert rest userId windowKey
        (p.1, e :: p.2)

/-- Function `checkRateLimit` of `src/lib/rate-limit.ts`.  The current UTC minute
string is the `windowKey` argument; `storageFails` models the catch
branch taken when the external store's upsert rejects. -/
def checkRateLimit (t : RateTable) (userId windowKey : String)
    (storageFails : Bool) : RateCheck × RateTable :=
  if storageFails then
    ({ allowed := true, remaining := MAX_RUNS_PER_MINUTE }, t)
  else
    let p := rateUpsert t userId windowKey
    ({ allowed := p.1 ≤ MAX_RUNS_PER_MINUTE,
       remaining := MAX_RUNS_PER_MINUTE - p.1 }, p.2)

/-- Iterate: `n` successive `checkRateLimit` calls (no storage failure) for one
user in one minute window. -/
def iterateCheck (userId windowKey : String) : ℕ → RateTable → RateTable
  | 0, t => t
  | n + 1, t => (checkRateLimit (iterateCheck userId windowKey n t) userId windowKey false).2

theorem rateUpsert_fst (t : RateTable) (u w : String) :
    (rateUpsert t u w).1 = rateCount t u w + 1 := by
  induction t with
  | nil => rfl
  | cons e rest ih =>
      by_cases h : e.1 = (u, w) <;> simp [rateUpsert, rateCount, h, ih]

theorem rateUpsert_count (t : RateTable) (u w : String) :
    rateCount (rateUpsert t u w).2 u w = rateCount t u w + 1 := by
  induction t with
  | nil => simp [rateUpsert, rateCount]
  | cons e rest ih =>
      by_cases h : e.1 = (u, w) <;> simp [rateUpsert, rateCount, h, ih]

theorem checkRateLimit_count (t : RateTable) (u w : String) :
    rateCount (checkRateLimit t u w false).2 u w = rateCount t u w + 1 := by
  simp [checkRateLimit, rateUpsert_count]

theorem iterateCheck_count (u w : String) (n : ℕ) (t : RateTable) :
    rateCount (iterateCheck u w n t) u w = rateCount t u w + n := by
  induction n with
  | zero => rfl
  | succ n ih => simp [iterateCheck, checkRateLimit_count, ih]; omega

/-- C3: calls to `checkRateLimit` within one minute window increment the
per-`(userId, windowKey)` counter; starting from a fresh window the 10th
call returns `allowed=true, remaining=0` and the 11th returns
`allowed=false`; a call under the following minute's key starts a fresh
count; and on a storage failure the limiter fails open with
`allowed=true`, leaving the table untouched. -/
theorem checkRateLimit_claim :
    (∀ t u w, rateCount (checkRateLimit t u w false).2 u w = rateCount t u w + 1)
    ∧ (∀ t u w, rateCount t u w = 0 →
        (checkRateLimit (iterateCheck u w 9 t) u w false).1 = ⟨true, 0⟩
        ∧ (checkRateLimit (iterateCheck u w 10 t) u w false).1.allowed = false)
    ∧ (∀ t u w', rateCount t u w' = 0 →
        (checkRateLimit t u w' false).1 = ⟨true, 9⟩)
    ∧ (∀ t u w, (checkRateLimit t u w true).1 = ⟨true, 10⟩
        ∧ (checkRateLimit t u w true).2 = t) := by
  refine ⟨checkRateLimit_count, ?_, ?_, ?_⟩
  · intro t u w h
    have h9 : rateCount (iterateCheck u w 9 t) u w = 9 := by
      rw [iterateCheck_count, h]
    have h10 : rateCount (iterateCheck u w 10 t) u w = 10 := by
      rw [iterateCheck_count, h]
    constructor
    · simp [checkRateLimit, rateUpsert_fst, h9, MAX_RUNS_PER_MINUTE]
    · simp [checkRateLimit, rateUpsert_fst, h10, MAX_RUNS_PER_MINUTE]
  · intro t u w' h
    simp [checkRateLimit, rateUpsert_fst, h, MAX_RUNS_PER_MINUTE]
  · intro t u w
    exact ⟨rfl, rfl⟩

/-- Witness for C3 at a concrete user and minute window. -/
theorem checkRateLimit_claim_witness :
    (checkRateLimit (iterateCheck "u1" "2026-01-05T12:00" 9 []) "u1" "2026-01-05T12:00" false).1 = ⟨true, 0⟩
    ∧ (checkRateLimit (iterateCheck "u1" "2026-01-05T12:00" 10 []) "u1" "2026-01-05T12:00" false).1.allowed = false
    ∧ (checkRateLimit (iterateCheck "u1" "2026-01-05T12:00" 10 []) "u1" "2026-01-05T12:01" false).1 = ⟨true, 9⟩ :=
  ⟨(checkRateLimit_claim.2.1 [] "u1" "2026-01-05T12:00" (by decide)).1,
   (checkRateLimit_claim.2.1 [] "u1" "2026-01-05T12:00" (by decide)).2,
   checkRateLimit_claim.2.2.1 (iterateCheck "u1" "2026-01-05T12:00" 10 []) "u1"
     "2026-01-05T12:01" (by decide)⟩

/-! ## Secret redaction (src/lib/encryption.ts, `redactApiKey`) -/

/-- Predicate `isPre p s` holds when the character list `p` is an initial segment
of `s` (the anchored match of the literal regex built from a secret). -/
def isPre : List Char → List Char → Bool
  | [], _ => true
  | _ :: _, [] => false
  | a :: as, b :: bs => if a = b then isPre as bs else false

/-- Predicate `occursSub p s`: the literal pattern `p` occurs somewhere in `s`. -/
def occursSub (p : List Char) : List Char → Bool
  | [] => isPre p []
  | c :: rest => isPre p (c :: rest) || occursSub p rest

/-- One pass of JavaScript `String.replace` with a global literal
pattern `p` and replacement `r`: leftmost, non-overlapping matches are
replaced, scanning resumes right after each match.  `fuel` bounds the
recursion; every use supplies `fuel ≥ s.length`. -/
def replaceAllAux (p r : List Char) : ℕ → List Char → List Char
  | 0, s => s
  | _ + 1, [] => []
  | fuel + 1, c :: rest =>
      if isPre p (c :: rest) then
        r ++ replaceAllAux p r fuel (List.drop (p.length - 1) rest)
      else
        c :: replaceAllAux p r fuel rest

def replaceAllStr (p r s : String) : String :=
  ⟨replaceAllAux p.data r.data s.data.length s.data⟩

/-- Function `redactApiKey` of `src/lib/encryption.ts`: secrets shorter than 8
characters (or empty) leave the text untouched; otherwise every literal
occurrence is replaced by the fixed placeholder `[REDACTED]` (the source
regex-escapes the secret, so the match is the literal string). -/
def redactApiKey (text apiKey : String) : String :=
  if apiKey = "" ∨ apiKey.length < 8 then text
  else replaceAllStr apiKey "[REDACTED]" text

theorem occursSub_append_right {p r x : List Char} (hp : p ≠ [])
    (disj : ∀ a ∈ p, a ∉ r) (h : occursSub p (r ++ x) = true) :
    occursSub p x = true := by
  induction r with
  | nil => simpa using h
  | cons c r' ih =>
      rw [List.cons_append, occursSub] at h
      rcases Bool.or_eq_true_iff.mp h with h1 | h2
      · obtain ⟨a, as, rfl⟩ : ∃ a as, p = a :: as := by
          cases p with
          | nil => exact absurd rfl hp
          | cons a as => exact ⟨a, as, rfl⟩
        rw [isPre] at h1
        split at h1
        · next heq =>
            exact absurd (heq ▸ List.mem_cons_self c r')
              (disj a (List.mem_cons_self a as))
        · exact absurd h1 (by simp)
      · exact ih (fun a ha hm => disj a ha (List.mem_cons_of_mem c hm)) h2

theorem isPre_replaceAllAux {p r : List Char} (disj : ∀ a ∈ p, a ∉ r)
    (hr : r ≠ []) :
    ∀ fuel s q, s.length ≤ fuel → q ≠ [] → (∀ a ∈ q, a ∈ p) →
      isPre q (replaceAllAux p r fuel s) = true → isPre q s = true := by
  intro fuel
  induction fuel with
  | zero =>
      intro s q hs _ _ h
      have : s = [] := List.length_eq_zero.mp (Nat.le_zero.mp hs)
      subst this
      simpa [replaceAllAux] using h
  | succ fuel ih =>
      intro s q hs hq hsub h
      cases s with
      | nil =>
          rw [replaceAllAux] at h
          obtain ⟨a, as, rfl⟩ : ∃ a as, q = a :: as := by
            cases q with
            | nil => exact absurd rfl hq
            | cons a as => exact ⟨a, as, rfl⟩
          simp [isPre] at h
      | cons c rest =>
          rw [replaceAllAux] at h
          obtain ⟨a, as, rfl⟩ : ∃ a as, q = a :: as := by
            cases q with
            | nil => exact absurd rfl hq
            | cons a as => exact ⟨a, as, rfl⟩
          split at h
          · obtain ⟨b, r', rfl⟩ : ∃ b r', r = b :: r' := by
              cases r with
              | nil => exact absurd rfl hr
              | cons b r' => exact ⟨b, r', rfl⟩
            rw [List.cons_append, isPre] at h
            split at h
            · next heq =>
                exact absurd (heq ▸ List.mem_cons_self b r')
                  (disj a (hsub a (List.mem_cons_self a as)))
            · exact absurd h (by simp)
          · rw [isPre] at h
            split at h
            · next heq =>
                subst heq
                cases as with
                | nil => simp [isPre]
                | cons a' as' =>
                    have has : isPre (a' :: as') rest = true :=
                      ih rest (a' :: as') (Nat.le_of_succ_le_succ hs)
                        (by simp)
                        (fun x hx => hsub x (List.mem_cons_of_mem a hx)) h
                    simp [isPre, has]
            · exact absurd h (by simp)

theorem occursSub_replaceAllAux {p r : List Char} (hp : p ≠ []) (hr : r ≠ [])
    (disj : ∀ a ∈ p, a ∉ r) :
    ∀ fuel s, s.length ≤ fuel →
      occursSub p (replaceAllAux p r fuel s) = false := by
  intro fuel
  induction fuel with
  | zero =>
      intro s hs
      have : s = [] := List.length_eq_zero.mp (Nat.le_zero.mp hs)
      subst this
      obtain ⟨a, as, rfl⟩ : ∃ a as, p = a :: as := by
        cases p with
        | nil => exact absurd rfl hp
        | cons a as => exact ⟨a, as, rfl⟩
      simp [replaceAllAux, occursSub, isPre]
  | succ fuel ih =>
      intro s hs
      cases s with
      | nil =>
          obtain ⟨a, as, rfl⟩ : ∃ a as, p = a :: as := by
            cases p with
            | nil => exact absurd rfl hp
            | cons a as => exact ⟨a, as, rfl⟩
          simp [replaceAllAux, occursSub, isPre]
      | cons c rest =>
          rw [replaceAllAux]
          split
          · next hmatch =>
              by_contra hocc
              have hocc' : occursSub p (r ++ replaceAllAux p r fuel
                  (List.drop (p.length - 1) rest)) = true := by
                revert hocc
                cases h : occursSub p (r ++ replaceAllAux p r fuel
                    (List.drop (p.length - 1) rest)) <;> simp
              have h2 := occursSub_append_right hp disj hocc'
              have hlen : (List.drop (p.length - 1) rest).length ≤ fuel := by
                have := List.length_drop (p.length - 1) rest
                have hrest : rest.length ≤ fuel := by
                  simpa using Nat.le_of_succ_le_succ hs
                omega
              rw [ih (List.drop (p.length - 1) rest) hlen] at h2
              exact Bool.false_ne_true h2
          · next hnomatch =>
              rw [occursSub]
              have hrec := ih rest (Nat.le_of_succ_le_succ (by simpa using hs))
              rw [hrec]
              obtain ⟨a, as, rfl⟩ : ∃ a as, p = a :: as := by
                cases p with
                | nil => exact absurd rfl hp
                | cons a as => exact ⟨a, as, rfl⟩
              rw [isPre]
              split
              · next heq =>
                  subst heq
                  cases has : isPre as (replaceAllAux (a :: as) r fuel rest)
                  · simp [has]
                  · cases as with
                    | nil => simp [isPre] at hnomatch
                    | cons a' as' =>
                        have := isPre_replaceAllAux disj hr fuel rest (a' :: as')
                          (Nat.le_of_succ_le_succ (by simpa using hs)) (by simp)
                          (fun x hx => List.mem_cons_of_mem a hx) has
                        have h3 : isPre (a :: a' :: as') (a :: rest) = true := by
                          simpa [isPre] using this
                        exact absurd h3 (by simp [hnomatch])
              · simp

/-- C5 (counterexample): the secret `"REDACTED"` has length 8, yet the
output of `redact` still contains it literally — replacing the match by
the placeholder `[REDACTED]` re-introduces the secret as a substring, so
the claim "the output contains no literal occurrence of any secret of
length ≥ 8" is false at this input. -/
theorem redactApiKey_counterexample :
    8 ≤ "REDACTED".length
    ∧ occursSub "REDACTED".data (redactApiKey "REDACTED" "REDACTED").data = true := by
  constructor
  · decide
  · decide

/-- C5 (amended): secrets shorter than 8 characters are returned
unchanged; and for every secret of length at least 8 **sharing no
character with the placeholder `[REDACTED]`**, the output of `redact`
contains no literal occurrence of the secret. -/
theorem redactApiKey_amended :
    (∀ text apiKey : String, apiKey.length < 8 → redactApiKey text apiKey = text)
    ∧ (∀ text apiKey : String, 8 ≤ apiKey.length →
        (∀ a ∈ apiKey.data, a ∉ "[REDACTED]".data) →
        occursSub apiKey.data (redactApiKey text apiKey).data = false) := by
  constructor
  · intro text apiKey h
    simp [redactApiKey, h]
  · intro text apiKey h8 disj
    have hne : ¬(apiKey = "" ∨ apiKey.length < 8) := by
      rintro (rfl | hlt)
      · simp [String.length] at h8
      · omega
    rw [redactApiKey, if_neg hne]
    show occursSub apiKey.data
      (replaceAllAux apiKey.data "[REDACTED]".data text.data.length text.data) = false
    apply occursSub_replaceAllAux ?_ (by decide) disj text.data.length text.data le_rfl
    intro hnil
    rw [String.length, hnil] at h8
    simp at h8

/-- Witness for C5 (amended) at concrete inputs. -/
theorem redactApiKey_amended_witness :
    redactApiKey "hello" "short" = "hello"
    ∧ occursSub "sk123456".data
        (redactApiKey "key=sk123456 leaked" "sk123456").data = false :=
  ⟨redactApiKey_amended.1 "hello" "short" (by decide),
   redactApiKey_amended.2 "key=sk123456 leaked" "sk123456" (by decide) (by decide)⟩

/-- C4: `calculateCost` is total and follows the fallback ladder: an
entry in the price table gives the exact linear cost with
`isEstimated=false`; an unknown model under a known provider uses that
provider's default-model pricing with `isEstimated=true`; an unknown
provider uses the flat `$10` per million combined tokens with
`isEstimated=true`.  (Totality is by construction: the Lean function,
like the source, has no failing path.) -/
theorem calculateCost_claim :
    (∀ (p m : String) (i o : ℕ) cfg pr,
        PROVIDER_CONFIGS.lookup p = some cfg →
        cfg.models.lookup m = some pr →
        calculateCost p m i o =
          ⟨(i : ℚ) / 1000000 * pr.inputPer1M + (o : ℚ) / 1000000 * pr.outputPer1M,
           false⟩)
    ∧ (∀ (p m : String) (i o : ℕ) cfg dp,
        PROVIDER_CONFIGS.lookup p = some cfg →
        cfg.models.lookup m = none →
        cfg.models.lookup cfg.defaultModel = some dp →
        calculateCost p m i o =
          ⟨(i : ℚ) / 1000000 * dp.inputPer1M + (o : ℚ) / 1000000 * dp.outputPer1M,
           true⟩)
    ∧ (∀ (p m : String) (i o : ℕ),
        PROVIDER_CONFIGS.lookup p = none →
        calculateCost p m i o = ⟨((i : ℚ) + (o : ℚ)) * 0.00001, true⟩) := by
  refine ⟨?_, ?_, ?_⟩
  · intro p m i o cfg pr h1 h2
    simp [calculateCost, h1, h2]
  · intro p m i o cfg dp h1 h2 h3
    simp [calculateCost, h1, h2, h3]
  · intro p m i o h1
    simp [calculateCost, h1]

/-- Witness for C4: one concrete input per rung of the ladder. -/
theorem calculateCost_claim_witness :
    calculateCost "openai" "gpt-4o" 1000000 1000000 = ⟨12.5, false⟩
    ∧ calculateCost "openai" "gpt-new-unknown" 1000000 1000000 = ⟨12.5, true⟩
    ∧ calculateCost "mysteryvendor" "some-model" 500000 500000 = ⟨10, true⟩ := by
  refine ⟨?_, ?_, ?_⟩
  · rw [calculateCost_claim.1 "openai" "gpt-4o" 1000000 1000000 _ _ rfl rfl]
    norm_num
  · rw [calculateCost_claim.2.1 "openai" "gpt-new-unknown" 1000000 1000000 _ _ rfl rfl rfl]
    norm_num
  · rw [calculateCost_claim.2.2 "mysteryvendor" "some-model" 500000 500000 rfl]
    norm_num

/-! ## Secret codec (src/lib/encryption.ts, AES-256-GCM via Node crypto)

Modelled from the spec: the cipher itself lives in Node's external
`crypto` library, not in this repository.  §4.5 of the spec describes an
authenticated symmetric cipher whose decryption verifies the
authentication tag.  The model reproduces the GCM structure — counter
mode (ciphertext = plaintext XOR keystream(key, iv)) plus a
deterministic tag over (key, iv, ciphertext) — with a concrete mixing
function standing in for the AES-256 block cipher; the round-trip and
tamper-rejection properties proved below depend only on this structure,
never on the block cipher's internals.  Plaintext strings are modelled
at the byte level (every character code below 256), matching the
codec's byte-stream interface. -/

def mixFold (seed : ℕ) (l : List ℕ) : ℕ :=
  l.foldl (fun a b => (a * 131 + b + 1) % 65521) seed

/-- Keystream byte `i` of the modelled cipher. -/
def ksByte (key iv : List ℕ) (i : ℕ) : ℕ :=
  (mixFold 17 key * (i + 1) + mixFold 29 iv * (i + 13) + i * i) % 256

def keystream (key iv : List ℕ) (n : ℕ) : List ℕ :=
  (List.range n).map (ksByte key iv)

/-- The modelled 16-byte authentication tag: a deterministic digest of
key, iv and ciphertext (stand-in for GHASH under the external AES key). -/
def computeTag (key iv ct : List ℕ) : List ℕ :=
  (List.range 16).map (fun j => (mixFold (j + 101) (key ++ iv ++ ct) + j) % 256)

def xorBytes (a b : List ℕ) : List ℕ := List.zipWith (fun x y => x ^^^ y) a b

def hexDigitChar (n : ℕ) : Char :=
  if n < 10 then Char.ofNat (48 + n) else Char.ofNat (87 + n)

def hexOfBytes : List ℕ → List Char
  | [] => []
  | b :: rest => hexDigitChar (b / 16) :: hexDigitChar (b % 16) :: hexOfBytes rest

def hexCharVal (c : Char) : Option ℕ :=
  if 48 ≤ c.toNat ∧ c.toNat ≤ 57 then some (c.toNat - 48)
  else if 97 ≤ c.toNat ∧ c.toNat ≤ 102 then some (c.toNat - 87)
  else if 65 ≤ c.toNat ∧ c.toNat ≤ 70 then some (c.toNat - 55)
  else none

/-- Model of `Buffer.from(s, 'hex')`: greedy pair-wise parse, truncating at the
first non-hex pair. -/
def hexToBytes : List Char → List ℕ
  | c1 :: c2 :: rest =>
      match hexCharVal c1, hexCharVal c2 with
      | some h, some l => (16 * h + l) :: hexToBytes rest
      | _, _ => []
  | _ => []

structure EncryptedData where
  encryptedKey : String
  iv : String
  authTag : String
deriving DecidableEq, Repr

/-- Function `encryptApiKey` of `src/lib/encryption.ts`; the random 12-byte IV
produced by `randomBytes` is an explicit argument (external entropy). -/
def encryptApiKey (key iv : List ℕ) (plaintext : String) : EncryptedData :=
  let pt := plaintext.data.map Char.toNat
  let ct := xorBytes pt (keystream key iv pt.length)
  { encryptedKey := ⟨hexOfBytes ct⟩,
    iv := ⟨hexOfBytes iv⟩,
    authTag := ⟨hexOfBytes (computeTag key iv ct)⟩ }

/-- Function `decryptApiKey` of `src/lib/encryption.ts`: recomputes the tag over
the received ciphertext and fails (`none`, modelling the raised
exception) unless it matches the received auth tag. -/
def decryptApiKey (key : List ℕ) (d : EncryptedData) : Option String :=
  let iv := hexToBytes d.iv.data
  let ct := hexToBytes d.encryptedKey.data
  let tag := hexToBytes d.authTag.data
  if tag = computeTag key iv ct then
    some ⟨(xorBytes ct (keystream key iv ct.length)).map Char.ofNat⟩
  else none

theorem hexCharVal_hexDigitChar : ∀ d < 16, hexCharVal (hexDigitChar d) = some d := by
  decide

theorem hexToBytes_hexOfBytes :
    ∀ bs : List ℕ, (∀ b ∈ bs, b < 256) → hexToBytes (hexOfBytes bs) = bs := by
  intro bs
  induction bs with
  | nil => intro _; rfl
  | cons b rest ih =>
      intro h
      have hb : b < 256 := h b (List.mem_cons_self b rest)
      have h1 : hexCharVal (hexDigitChar (b / 16)) = some (b / 16) :=
        hexCharVal_hexDigitChar (b / 16) (Nat.div_lt_of_lt_mul (by omega))
      have h2 : hexCharVal (hexDigitChar (b % 16)) = some (b % 16) :=
        hexCharVal_hexDigitChar (b % 16) (Nat.mod_lt b (by norm_num))
      rw [hexOfBytes, hexToBytes, h1, h2]
      rw [ih (fun x hx => h x (List.mem_cons_of_mem b hx))]
      show (16 * (b / 16) + b % 16) :: rest = b :: rest
      rw [Nat.div_add_mod]

theorem keystream_length (key iv : List ℕ) (n : ℕ) :
    (keystream key iv n).length = n := by
  simp [keystream]

theorem xorBytes_lt :
    ∀ a b : List ℕ, (∀ x ∈ a, x < 256) → (∀ x ∈ b, x < 256) →
      ∀ x ∈ xorBytes a b, x < 256 := by
  intro a
  induction a with
  | nil => intro b _ _ x hx; simp [xorBytes] at hx
  | cons c rest ih =>
      intro b ha hb x hx
      cases b with
      | nil => simp [xorBytes] at hx
      | cons d bs =>
          rw [xorBytes, List.zipWith_cons_cons] at hx
          rcases List.mem_cons.mp hx with rfl | hx'
          · have h1 : c < 2 ^ 8 := by
              simpa using ha c (List.mem_cons_self c rest)
            have h2 : d < 2 ^ 8 := by
              simpa using hb d (List.mem_cons_self d bs)
            simpa using Nat.xor_lt_two_pow h1 h2
          · exact ih bs (fun y hy => ha y (List.mem_cons_of_mem c hy))
              (fun y hy => hb y (List.mem_cons_of_mem d hy)) x hx'

theorem keystream_lt (key iv : List ℕ) (n : ℕ) :
    ∀ x ∈ keystream key iv n, x < 256 := by
  intro x hx
  simp only [keystream, List.mem_map] at hx
  obtain ⟨i, _, rfl⟩ := hx
  exact Nat.mod_lt _ (by norm_num)

theorem computeTag_lt (key iv ct : List ℕ) :
    ∀ x ∈ computeTag key iv ct, x < 256 := by
  intro x hx
  simp only [computeTag, List.mem_map] at hx
  obtain ⟨j, _, rfl⟩ := hx
  exact Nat.mod_lt _ (by norm_num)

theorem xorBytes_cancel :
    ∀ a b : List ℕ, a.length = b.length → xorBytes (xorBytes a b) b = a := by
  intro a
  induction a with
  | nil => intro b _; rfl
  | cons c rest ih =>
      intro b h
      cases b with
      | nil => simp at h
      | cons d bs =>
          simp only [xorBytes, List.zipWith_cons_cons]
          rw [Nat.xor_cancel_right]
          have := ih bs (by simpa using h)
          simp only [xorBytes] at this
          rw [this]

@[simp] theorem data_mk (l : List Char) : (⟨l⟩ : String).data = l := rfl

theorem decrypt_encrypt_core (key iv : List ℕ) (sd : List Char)
    (hiv : ∀ b ∈ iv, b < 256) (hs : ∀ c ∈ sd, c.toNat < 256) :
    decryptApiKey key (encryptApiKey key iv ⟨sd⟩) = some ⟨sd⟩ := by
  have hptlt : ∀ x ∈ List.map Char.toNat sd, x < 256 := by
    intro x hx
    obtain ⟨c, hc, rfl⟩ := List.mem_map.mp hx
    exact hs c hc
  have hctlt : ∀ x ∈ xorBytes (List.map Char.toNat sd)
      (keystream key iv (List.map Char.toNat sd).length), x < 256 :=
    xorBytes_lt _ _ hptlt (keystream_lt _ _ _)
  have hctlen : (xorBytes (List.map Char.toNat sd)
      (keystream key iv (List.map Char.toNat sd).length)).length
      = (List.map Char.toNat sd).length := by
    rw [xorBytes, List.length_zipWith, keystream_length]
    exact Nat.min_self _
  simp only [encryptApiKey, decryptApiKey, data_mk]
  rw [hexToBytes_hexOfBytes iv hiv, hexToBytes_hexOfBytes _ hctlt,
    hexToBytes_hexOfBytes _ (computeTag_lt _ _ _)]
  rw [if_pos rfl, hctlen]
  rw [xorBytes_cancel _ _ (keystream_length key iv _).symm]
  rw [List.map_map]
  have hcomp : Char.ofNat ∘ Char.toNat = id := funext Char.ofNat_toNat
  rw [hcomp, List.map_id]

/-- C6: `decrypt (encrypt s) = s` for every byte string, and
decryption of a payload whose auth tag was tampered with (its decoded
bytes differ from the genuine tag's) fails with `none` instead of
returning any plaintext. -/
theorem encrypt_decrypt_claim :
    (∀ (key iv : List ℕ) (s : String),
        (∀ b ∈ iv, b < 256) → (∀ c ∈ s.data, c.toNat < 256) →
        decryptApiKey key (encryptApiKey key iv s) = some s)
    ∧ (∀ (key iv : List ℕ) (s tamperedTag : String),
        (∀ b ∈ iv, b < 256) → (∀ c ∈ s.data, c.toNat < 256) →
        hexToBytes tamperedTag.data
          ≠ hexToBytes (encryptApiKey key iv s).authTag.data →
        decryptApiKey key
          { encryptApiKey key iv s with authTag := tamperedTag } = none) := by
  constructor
  · intro key iv s hiv hs
    obtain ⟨sd⟩ := s
    exact decrypt_encrypt_core key iv sd hiv hs
  · intro key iv s tamperedTag hiv hs hne
    obtain ⟨sd⟩ := s
    have hptlt : ∀ x ∈ List.map Char.toNat sd, x < 256 := by
      intro x hx
      obtain ⟨c, hc, rfl⟩ := List.mem_map.mp hx
      exact hs c hc
    have hctlt : ∀ x ∈ xorBytes (List.map Char.toNat sd)
        (keystream key iv (List.map Char.toNat sd).length), x < 256 :=
      xorBytes_lt _ _ hptlt (keystream_lt _ _ _)
    simp only [encryptApiKey, decryptApiKey, data_mk] at hne ⊢
    rw [hexToBytes_hexOfBytes _ (computeTag_lt _ _ _)] at hne
    rw [hexToBytes_hexOfBytes iv hiv, hexToBytes_hexOfBytes _ hctlt]
    rw [if_neg hne]

/-- Witness for C6 at a concrete key, IV, plaintext and tampered tag. -/
theorem encrypt_decrypt_claim_witness :
    decryptApiKey [7, 3]
        (encryptApiKey [7, 3] [0, 1, 2, 3, 4, 5, 6, 7, 8, 9, 10, 11]
          "sk-test-12345678") = some "sk-test-12345678"
    ∧ decryptApiKey [7, 3]
        { encryptApiKey [7, 3] [0, 1, 2, 3, 4, 5, 6, 7, 8, 9, 10, 11]
            "sk-test-12345678" with
          authTag := "00000000000000000000000000000000" } = none :=
  ⟨encrypt_decrypt_claim.1 [7, 3] [0, 1, 2, 3, 4, 5, 6, 7, 8, 9, 10, 11]
      "sk-test-12345678" (by decide) (by decide),
   encrypt_decrypt_claim.2 [7, 3] [0, 1, 2, 3, 4, 5, 6, 7, 8, 9, 10, 11]
      "sk-test-12345678" "00000000000000000000000000000000"
      (by decide) (by decide) (by decide)⟩

/-! ## Variable substitution (src/lib/test-runner.ts)

`substituteVariables` builds, per variable, the regex
`\{\{\s*key\s*\}\}` (global) and calls JavaScript `String.replace` with
the variable's **value as the replacement string**.  JavaScript expands
dollar patterns in a string replacement (`$$`, `$&`, the backtick and
quote forms for the text before/after the match; `$n` stays literal
because the pattern has no capture groups), so the model reproduces that
expansion.  The `\s` class is modelled by its ASCII members; the
matcher, like the source regex for identifier-shaped keys, is
`{{` + whitespace* + key + whitespace* + `}}`. -/

def isWsChar (c : Char) : Bool :=
  c.toNat = 32 ∨ c.toNat = 9 ∨ c.toNat = 10 ∨ c.toNat = 13
    ∨ c.toNat = 12 ∨ c.toNat = 11

/-- Keys the embedding's matcher treats exactly like the source regex:
alphanumerics and underscore (no regex metacharacters, no whitespace). -/
def isIdentChar (c : Char) : Bool :=
  (48 ≤ c.toNat ∧ c.toNat ≤ 57) ∨ (65 ≤ c.toNat ∧ c.toNat ≤ 90)
    ∨ (97 ≤ c.toNat ∧ c.toNat ≤ 122) ∨ c.toNat = 95

/-- Length of the leading whitespace run (the greedy `\s*`). -/
def countWs : List Char → ℕ
  | [] => 0
  | c :: rest => if isWsChar c then countWs rest + 1 else 0

/-- Anchored match of `\{\{\s*key\s*\}\}`; returns the match length. -/
def matchVar (key : List Char) (s : List Char) : Option ℕ :=
  match s with
  | '{' :: '{' :: rest =>
      let w1 := countWs rest
      let r1 := rest.drop w1
      if isPre key r1 then
        let r2 := r1.drop key.length
        let w2 := countWs r2
        match r2.drop w2 with
        | '}' :: '}' :: _ => some (2 + w1 + key.length + w2 + 2)
        | _ => none
      else none
  | _ => none

/-- JavaScript replacement-string expansion: `$$`, `$&` (the match),
the backtick form (text before the match), the quote form (text after
the match); any other `$` sequence stays literal (the pattern has no
capture groups). -/
def expandDollar (matched before after : List Char) : List Char → List Char
  | [] => []
  | [c] => [c]
  | c :: d :: rest =>
      if c = '$' then
        if d = '$' then '$' :: expandDollar matched before after rest
        else if d = '&' then matched ++ expandDollar matched before after rest
        else if d = Char.ofNat 96 then before ++ expandDollar matched before after rest
        else if d = Char.ofNat 39 then after ++ expandDollar matched before after rest
        else '$' :: expandDollar matched before after (d :: rest)
      else c :: expandDollar matched before after (d :: rest)

/-- Global-regex scan of `String.replace`: leftmost matches replaced,
scanning resumes after each match, replaced text is not rescanned.
`doneRev` holds (reversed) the subject characters already consumed, so
the before/after context of each match refers to the whole subject. -/
def replaceVarGo (key val : List Char) : ℕ → List Char → List Char → List Char
  | 0, _, s => s
  | _ + 1, _, [] => []
  | fuel + 1, doneRev, c :: rest =>
      match matchVar key (c :: rest) with
      | some L =>
          expandDollar ((c :: rest).take L) doneRev.reverse ((c :: rest).drop L) val
            ++ replaceVarGo key val fuel (((c :: rest).take L).reverse ++ doneRev)
                ((c :: rest).drop L)
      | none => c :: replaceVarGo key val fuel (c :: doneRev) rest

/-- One `result.replace(regex, value)` call of `substituteVariables`. -/
def replaceVar (key val subject : String) : String :=
  ⟨replaceVarGo key.data val.data subject.data.length [] subject.data⟩

/-- Function `substituteVariables` of `src/lib/test-runner.ts`: fold the
(insertion-ordered) variable entries through `String.replace`. -/
def substituteVariables (template : String)
    (vars : List (String × String)) : String :=
  vars.foldl (fun result kv => replaceVar kv.1 kv.2 result) template

/-- The JS object spread `{...testVariables, ...variables}`: the keys of
the defaults in order (values overridden per key by the overrides), then
the overrides' new keys in their order. -/
def mergeVars (defaults overrides : List (String × String)) :
    List (String × String) :=
  defaults.map (fun p =>
      (p.1, match overrides.lookup p.1 with | some v => v | none => p.2))
    ++ overrides.filter (fun p => (defaults.lookup p.1).isNone)

/-- Does the pattern `\{\{\s*key\s*\}\}` match anywhere in `s`? -/
def hasVar (key : List Char) : List Char → Bool
  | [] => false
  | c :: rest => (matchVar key (c :: rest)).isSome || hasVar key rest

theorem replaceVarGo_nil (key val : List Char) (fuel : ℕ) (doneRev : List Char) :
    replaceVarGo key val fuel doneRev [] = [] := by
  cases fuel <;> rfl

theorem replaceVarGo_no_match (key val : List Char) :
    ∀ (fuel : ℕ) (doneRev s : List Char), s.length ≤ fuel →
      hasVar key s = false → replaceVarGo key val fuel doneRev s = s := by
  intro fuel
  induction fuel with
  | zero => intro doneRev s _ _; rfl
  | succ fuel ih =>
      intro doneRev s hs hnm
      cases s with
      | nil => rfl
      | cons c rest =>
          rw [hasVar, Bool.or_eq_false_iff] at hnm
          have hm : matchVar key (c :: rest) = none :=
            Option.not_isSome_iff_eq_none.mp (by simp [hnm.1])
          rw [replaceVarGo, hm]
          rw [ih (c :: doneRev) rest (Nat.le_of_succ_le_succ hs) hnm.2]

theorem replaceVar_no_match (key val t : String)
    (h : hasVar key.data t.data = false) : replaceVar key val t = t := by
  obtain ⟨td⟩ := t
  rw [replaceVar]
  congr 1
  exact replaceVarGo_no_match key.data val.data td.length [] td le_rfl h

theorem substituteVariables_fixed :
    ∀ (vars : List (String × String)) (t : String),
      (∀ kv ∈ vars, hasVar kv.1.data t.data = false) →
      substituteVariables t vars = t := by
  intro vars
  induction vars with
  | nil => intro t _; rfl
  | cons kv vars' ih =>
      intro t h
      have h1 : replaceVar kv.1 kv.2 t = t :=
        replaceVar_no_match _ _ _ (h kv (List.mem_cons_self kv vars'))
      simp only [substituteVariables, List.foldl_cons]
      rw [h1]
      exact ih t (fun kv' h' => h kv' (List.mem_cons_of_mem kv h'))

theorem lookup_append (A B : List (String × String)) (k : String) :
    (A ++ B).lookup k =
      match A.lookup k with
      | some v => some v
      | none => B.lookup k := by
  induction A with
  | nil => simp [List.lookup]
  | cons p A' ih =>
      obtain ⟨pk, pv⟩ := p
      rw [List.cons_append, List.lookup, List.lookup]
      cases hbeq : k == pk
      · simpa using ih
      · rfl

theorem lookup_map_override (d o : List (String × String)) (k : String) :
    (d.map (fun p =>
        (p.1, match o.lookup p.1 with | some v => v | none => p.2))).lookup k
      = match d.lookup k with
        | some v => some (match o.lookup k with | some w => w | none => v)
        | none => none := by
  induction d with
  | nil => simp [List.lookup]
  | cons p d' ih =>
      obtain ⟨pk, pv⟩ := p
      rw [List.map_cons, List.lookup, List.lookup]
      cases hbeq : k == pk
      · simpa using ih
      · have hk : k = pk := eq_of_beq hbeq
        subst hk
        rfl

theorem lookup_filter_keep (o : List (String × String))
    (d : List (String × String)) (k : String) (h : d.lookup k = none) :
    (o.filter (fun p => (d.lookup p.1).isNone)).lookup k = o.lookup k := by
  induction o with
  | nil => rfl
  | cons q o' ih =>
      obtain ⟨qk, qv⟩ := q
      by_cases hq : (d.lookup qk) = none
      · rw [List.filter_cons_of_pos (by simp [hq])]
        rw [List.lookup, List.lookup]
        cases hbeq : k == qk
        · simpa using ih
        · rfl
      · rw [List.filter_cons_of_neg (by simp [Option.isNone_iff_eq_none, hq])]
        rw [List.lookup]
        cases hbeq : k == qk
        · simpa using ih
        · exact absurd (eq_of_beq hbeq ▸ h) hq

theorem lookup_filter_drop (o : List (String × String))
    (d : List (String × String)) (k : String) (h : (d.lookup k).isSome) :
    (o.filter (fun p => (d.lookup p.1).isNone)).lookup k = none := by
  induction o with
  | nil => rfl
  | cons q o' ih =>
      obtain ⟨qk, qv⟩ := q
      by_cases hq : (d.lookup qk) = none
      · rw [List.filter_cons_of_pos (by simp [hq])]
        rw [List.lookup]
        cases hbeq : k == qk
        · simpa using ih
        · have hk : k = qk := eq_of_beq hbeq
          subst hk
          rw [hq] at h
          simp at h
      · rw [List.filter_cons_of_neg (by simp [Option.isNone_iff_eq_none, hq])]
        exact ih

theorem mergeVars_lookup (d o : List (String × String)) (k : String) :
    (mergeVars d o).lookup k = ((o.lookup k).orElse fun _ => d.lookup k) := by
  rw [mergeVars, lookup_append, lookup_map_override]
  cases hd : d.lookup k
  · rw [lookup_filter_keep o d k hd]
    cases ho : o.lookup k <;> simp [Option.orElse]
  · cases ho : o.lookup k <;> simp [Option.orElse]

theorem ident_not_ws (c : Char) (h : isIdentChar c = true) : isWsChar c = false := by
  simp only [isIdentChar, decide_eq_true_eq] at h
  simp only [isWsChar, decide_eq_false_iff_not]
  omega

theorem countWs_not_ws (c : Char) (rest : List Char) (h : isWsChar c = false) :
    countWs (c :: rest) = 0 := by
  simp [countWs, h]

theorem isPre_append_self : ∀ p t : List Char, isPre p (p ++ t) = true := by
  intro p
  induction p with
  | nil => intro t; rfl
  | cons a as ih => intro t; simp [isPre, ih]

theorem expandDollar_no_dollar (m b a : List Char) :
    ∀ v : List Char, '$' ∉ v → expandDollar m b a v = v := by
  intro v
  induction v with
  | nil => intro _; rfl
  | cons c rest ih =>
      intro h
      have hc : ¬c = '$' := fun hcc => h (hcc ▸ List.mem_cons_self c rest)
      cases rest with
      | nil => rfl
      | cons d rest' =>
          rw [expandDollar, if_neg hc,
            ih (fun hm => h (List.mem_cons_of_mem c hm))]

theorem matchVar_self (key t : List Char) (hk : key ≠ [])
    (hid : ∀ c ∈ key, isIdentChar c = true) :
    matchVar key ('{' :: '{' :: (key ++ '}' :: '}' :: t)) =
      some (key.length + 4) := by
  obtain ⟨kc, ktail, rfl⟩ : ∃ kc ktail, key = kc :: ktail := by
    cases key with
    | nil => exact absurd rfl hk
    | cons kc ktail => exact ⟨kc, ktail, rfl⟩
  rw [matchVar]
  have h0 : countWs ((kc :: ktail) ++ '}' :: '}' :: t) = 0 := by
    rw [List.cons_append]
    exact countWs_not_ws _ _ (ident_not_ws kc (hid kc (List.mem_cons_self kc ktail)))
  rw [h0, List.drop_zero, if_pos (isPre_append_self (kc :: ktail) _)]
  rw [List.drop_left]
  have h1 : countWs ('}' :: '}' :: t) = 0 := countWs_not_ws _ _ (by decide)
  simp only [h1, List.drop_zero]
  congr 1
  simp
  omega

theorem matchVar_self_spaced (key t : List Char) (hk : key ≠ [])
    (hid : ∀ c ∈ key, isIdentChar c = true) :
    matchVar key ('{' :: '{' :: ' ' :: (key ++ ' ' :: '}' :: '}' :: t)) =
      some (key.length + 6) := by
  obtain ⟨kc, ktail, rfl⟩ : ∃ kc ktail, key = kc :: ktail := by
    cases key with
    | nil => exact absurd rfl hk
    | cons kc ktail => exact ⟨kc, ktail, rfl⟩
  rw [matchVar]
  have h0 : countWs (' ' :: ((kc :: ktail) ++ ' ' :: '}' :: '}' :: t)) = 1 := by
    rw [countWs, if_pos (by decide), List.cons_append]
    rw [countWs_not_ws _ _ (ident_not_ws kc (hid kc (List.mem_cons_self kc ktail)))]
  rw [h0]
  rw [show List.drop 1 (' ' :: ((kc :: ktail) ++ ' ' :: '}' :: '}' :: t))
      = (kc :: ktail) ++ ' ' :: '}' :: '}' :: t from rfl]
  rw [if_pos (isPre_append_self (kc :: ktail) _)]
  rw [List.drop_left]
  have h1 : countWs (' ' :: '}' :: '}' :: t) = 1 := by
    rw [countWs, if_pos (by decide), countWs_not_ws _ _ (by decide)]
  simp only [h1]
  rw [show List.drop 1 (' ' :: '}' :: '}' :: t) = '}' :: '}' :: t from rfl]
  simp
  omega

theorem replaceVarGo_single (key val sd : List Char) (fuel : ℕ)
    (h : matchVar key sd = some sd.length) (hne : sd ≠ [])
    (hdollar : '$' ∉ val) :
    replaceVarGo key val (fuel + 1) [] sd = val := by
  obtain ⟨c, rest, rfl⟩ : ∃ c rest, sd = c :: rest := by
    cases sd with
    | nil => exact absurd rfl hne
    | cons c rest => exact ⟨c, rest, rfl⟩
  rw [replaceVarGo, h]
  simp only [List.take_length, List.drop_length, List.reverse_nil, List.append_nil]
  rw [expandDollar_no_dollar _ _ _ val hdollar, replaceVarGo_nil, List.append_nil]

theorem replaceVar_exact_plain (key val : String) (hk : key.data ≠ [])
    (hid : ∀ c ∈ key.data, isIdentChar c = true) (hv : '$' ∉ val.data) :
    replaceVar key val ("\x7b\x7b" ++ key ++ "\x7d\x7d") = val := by
  obtain ⟨vd⟩ := val
  rw [replaceVar]
  have hdata : ("\x7b\x7b" ++ key ++ "\x7d\x7d").data
      = '{' :: '{' :: (key.data ++ '}' :: '}' :: []) := by
    simp [String.data_append]
  rw [hdata]
  have hlen : ('{' :: '{' :: (key.data ++ '}' :: '}' :: [])).length
      = (key.data.length + 3) + 1 := by simp
  rw [hlen]
  congr 1
  apply replaceVarGo_single
  · rw [matchVar_self key.data [] hk hid]
    congr 1
    simp
  · simp
  · exact hv

theorem replaceVar_exact_spaced (key val : String) (hk : key.data ≠ [])
    (hid : ∀ c ∈ key.data, isIdentChar c = true) (hv : '$' ∉ val.data) :
    replaceVar key val ("\x7b\x7b " ++ key ++ " \x7d\x7d") = val := by
  obtain ⟨vd⟩ := val
  rw [replaceVar]
  have hdata : ("\x7b\x7b " ++ key ++ " \x7d\x7d").data
      = '{' :: '{' :: ' ' :: (key.data ++ ' ' :: '}' :: '}' :: []) := by
    simp [String.data_append]
  rw [hdata]
  have hlen : ('{' :: '{' :: ' ' :: (key.data ++ ' ' :: '}' :: '}' :: [])).length
      = (key.data.length + 5) + 1 := by simp
  rw [hlen]
  congr 1
  apply replaceVarGo_single
  · rw [matchVar_self_spaced key.data [] hk hid]
    congr 1
    simp
  · simp
  · exact hv

/-- C9 (counterexample): substitution is not literal — JavaScript
expands dollar patterns in the replacement string, so the variable value
`"$&"` re-inserts the matched placeholder text instead of the literal
two characters `$&`: substituting `x := "$&"` into `"{{x}}"` yields
`"{{x}}"`, not `"$&"`. -/
theorem substituteVariables_counterexample :
    substituteVariables "{{x}}" [("x", "$&")] = "{{x}}"
    ∧ substituteVariables "{{x}}" [("x", "$&")] ≠ "$&" := by
  constructor
  · rfl
  · decide

/-- C9 (amended): prompt resolution merges caller overrides over test
defaults with last-write-wins per key; each whitespace-tolerant
`{{key}}` placeholder is replaced with the value **interpreted as a
JavaScript replacement pattern** — literal replacement holds when the
value contains no dollar character; unmatched templates are returned
verbatim without error; and the substitution is idempotent provided no
variable key still matches in the once-substituted output. -/
theorem substituteVariables_amended :
    (∀ (d o : List (String × String)) (k : String),
        (mergeVars d o).lookup k = ((o.lookup k).orElse fun _ => d.lookup k))
    ∧ (∀ key val : String, key.data ≠ [] →
        (∀ c ∈ key.data, isIdentChar c = true) → '$' ∉ val.data →
        replaceVar key val ("\x7b\x7b" ++ key ++ "\x7d\x7d") = val
        ∧ replaceVar key val ("\x7b\x7b " ++ key ++ " \x7d\x7d") = val)
    ∧ (∀ key val t : String, hasVar key.data t.data = false →
        replaceVar key val t = t)
    ∧ (∀ (t : String) (vars : List (String × String)),
        (∀ kv ∈ vars, hasVar kv.1.data (substituteVariables t vars).data = false) →
        substituteVariables (substituteVariables t vars) vars
          = substituteVariables t vars) := by
  refine ⟨mergeVars_lookup, ?_, replaceVar_no_match, ?_⟩
  · intro key val hk hid hv
    exact ⟨replaceVar_exact_plain key val hk hid hv,
      replaceVar_exact_spaced key val hk hid hv⟩
  · intro t vars h
    exact substituteVariables_fixed vars (substituteVariables t vars) h

/-- Witness for C9 (amended) at concrete inputs. -/
theorem substituteVariables_amended_witness :
    (mergeVars [("a", "1"), ("b", "2")] [("b", "3"), ("c", "4")]).lookup "b"
      = some "3"
    ∧ replaceVar "name" "Ada" "{{name}}" = "Ada"
    ∧ replaceVar "name" "Ada" "{{ name }}" = "Ada"
    ∧ replaceVar "name" "Ada" "no placeholder {{other}}" = "no placeholder {{other}}"
    ∧ substituteVariables (substituteVariables "hi {{name}}" [("name", "Ada")])
        [("name", "Ada")] = substituteVariables "hi {{name}}" [("name", "Ada")] :=
  ⟨(substituteVariables_amended.1 [("a", "1"), ("b", "2")] [("b", "3"), ("c", "4")]
      "b").trans (by decide),
   (substituteVariables_amended.2.1 "name" "Ada" (by decide) (by decide) (by decide)).1,
   (substituteVariables_amended.2.1 "name" "Ada" (by decide) (by decide) (by decide)).2,
   substituteVariables_amended.2.2.1 "name" "Ada" "no placeholder {{other}}" (by decide),
   substituteVariables_amended.2.2.2 "hi {{name}}" [("name", "Ada")] (by decide)⟩

/-! ## Validation engine (src/lib/validation.ts)

`validateContains` is embedded exactly; `validateJsonSchema` goes
through `JSON.parse` and the external ajv compiler, so it enters the
model as a function parameter of the execution environment. -/

structure ValidationResult where
  passed : Bool
  notes : String
deriving DecidableEq, Repr

/-- Function `validateContains` of `src/lib/validation.ts` (JS `includes` is the
substring test). -/
def validateContains (output expectedContains : String) : ValidationResult :=
  let passed := occursSub expectedContains.data output.data
  { passed := passed,
    notes :=
      if passed then "Output contains expected string"
      else "Output does not contain: \"" ++ expectedContains.take 50
        ++ (if 50 < expectedContains.length then "..." else "") ++ "\"" }

/-- JS truthiness of an optional string (empty strings are falsy). -/
def strTruthy : Option String → Bool
  | none => false
  | some s => !(s == "")

/-- Function `validateOutput` of `src/lib/validation.ts`: `none` when no rule is
configured; otherwise conjunction of the configured checks with notes
joined by `"; "`.  `jsonValidate` is the external schema checker. -/
def validateOutput (output : String) (expectedContains jsonSchema : Option String)
    (jsonValidate : String → String → ValidationResult) : Option ValidationResult :=
  if !(strTruthy expectedContains) && !(strTruthy jsonSchema) then none
  else
    let results :=
      (if strTruthy expectedContains then
        [validateContains output (expectedContains.getD "")] else [])
      ++ (if strTruthy jsonSchema then
        [jsonValidate output (jsonSchema.getD "")] else [])
    some { passed := results.all (fun r => r.passed),
           notes := String.intercalate "; " (results.map (fun r => r.notes)) }

/-! ## Test runner (src/lib/test-runner.ts)

The Prisma store is modelled as explicit state (`St`): the rate-limit
table, the `Run` rows (each row carries its full status history, so the
state machine of C2 is observable), a fresh-id counter standing in for
cuid generation, and a log of the adapter network calls made.  Vendor
HTTP calls and the ajv validator live in the environment (`Env`) as
function parameters; the static pieces of the environment mirror the
source (`getAdapter` knows exactly the five registered providers). -/

structure ModelConfig where
  provider : String
  model : String
  apiKeyId : String
deriving DecidableEq, Repr

structure RunOptions where
  testId : String
  modelConfigs : List ModelConfig
  vars : List (String × String)
  batchCount : ℕ
  isDryRun : Bool
  userId : String
deriving DecidableEq, Repr

structure RunResult where
  id : String
  status : String
  provider : String
  model : String
  output : Option String
  errorMessage : Option String
  latencyMs : Option ℕ
  inputTokens : Option ℕ
  outputTokens : Option ℕ
  estimatedCost : Option ℚ
  passed : Option Bool
  validationNotes : Option String
deriving DecidableEq, Repr

structure TestRow where
  id : String
  userId : String
  basePrompt : String
  vars : List (String × String)
  expectedContains : Option String
  jsonSchema : Option String
deriving DecidableEq, Repr

structure ApiKeyRow where
  id : String
  userId : String
  encryptedKey : String
  iv : String
  authTag : String
  baseUrl : Option String
  isActive : Bool
deriving DecidableEq, Repr

structure RunRow where
  id : ℕ
  userId : String
  testId : Option String
  apiKeyId : String
  provider : String
  model : String
  prompt : String
  inputVariables : List (String × String)
  statusHistory : List String
  batchId : Option String
  batchIndex : Option ℕ
  isDryRun : Bool
  output : Option String
  errorMessage : Option String
  latencyMs : Option ℕ
  inputTokens : Option ℕ
  outputTokens : Option ℕ
  totalTokens : Option ℕ
  tokensEstimated : Option Bool
  estimatedCost : Option ℚ
  costEstimated : Option Bool
  passed : Option Bool
  validationNotes : Option String
deriving DecidableEq, Repr

structure CompleteRequest where
  messages : List (String × String)
  model : String
  apiKey : String
  baseUrl : Option String
deriving DecidableEq, Repr

structure CompleteResponse where
  output : String
  inputTokens : Option ℕ
  outputTokens : Option ℕ
  totalTokens : Option ℕ
  tokensEstimated : Bool
  finishReason : Option String
deriving DecidableEq, Repr

structure St where
  rate : RateTable
  runs : List RunRow
  nextRunId : ℕ
  adapterCalls : List CompleteRequest
deriving DecidableEq, Repr

structure Env where
  tests : List TestRow
  apiKeys : List ApiKeyRow
  adapterComplete : CompleteRequest → Except String CompleteResponse
  jsonValidate : String → String → ValidationResult
  encKey : List ℕ
  nowLatency : ℕ
  batchIdSeed : String
  windowKey : String

/-- The adapter registry keys of `src/lib/providers/index.ts`. -/
def KNOWN_PROVIDERS : List String :=
  ["openai", "anthropic", "google", "deepseek", "local"]

/-- Node's error message when GCM authentication fails in `decrypt`. -/
def DECRYPT_ERROR : String := "Unsupported state or unable to authenticate data"

def pushStatus (s : String) (r : RunRow) : RunRow :=
  { r with statusHistory := r.statusHistory ++ [s] }

/-- Model of `prisma.run.update({where: {id}, data})`: field update on the row. -/
def updateRun (runs : List RunRow) (id : ℕ) (f : RunRow → RunRow) : List RunRow :=
  runs.map (fun r => if r.id = id then f r else r)

def renderRunId (n : ℕ) : String := "run_" ++ toString n

/-- Function `executeRun` of `src/lib/test-runner.ts`.  The record is first moved
to `running` (unconditionally, before the dry-run branch); the dry-run
branch then estimates and lands in `dry_run` with no adapter call; the
live branch decrypts, resolves the adapter, performs the vendor call
(logged in `adapterCalls`), and lands in `completed`, while every thrown
error (failed decryption, unknown provider, vendor failure) is caught
and lands in `failed`. -/
def executeRun (env : Env) (runId : ℕ) (prompt : String) (mc : ModelConfig)
    (apiKey : ApiKeyRow) (expectedContains jsonSchema : Option String)
    (isDryRun : Bool) (st : St) : RunResult × St :=
  let st1 := { st with runs := updateRun st.runs runId (pushStatus "running") }
  if isDryRun then
    let inputTokens := estimateTokenCount prompt
    let cost := (calculateCost mc.provider mc.model inputTokens 500).cost
    let st2 := { st1 with runs := updateRun st1.runs runId (fun r =>
        pushStatus "dry_run" { r with
          inputTokens := some inputTokens, outputTokens := none,
          estimatedCost := some cost, tokensEstimated := some true,
          costEstimated := some true, isDryRun := true }) }
    ({ id := renderRunId runId, status := "dry_run",
       provider := mc.provider, model := mc.model,
       output := none, errorMessage := none, latencyMs := none,
       inputTokens := some inputTokens, outputTokens := none,
       estimatedCost := some cost, passed := none, validationNotes := none },
     st2)
  else
    let fail := fun (msg : String) (stf : St) =>
      ({ id := renderRunId runId, status := "failed",
          provider := mc.provider, model := mc.model,
          output := none, errorMessage := some msg,
          latencyMs := some env.nowLatency,
          inputTokens := none, outputTokens := none, estimatedCost := none,
          passed := none, validationNotes := none },
        { stf with runs := updateRun stf.runs runId (fun r =>
            pushStatus "failed" { r with
              errorMessage := some msg, latencyMs := some env.nowLatency }) })
    match decryptApiKey env.encKey
        { encryptedKey := apiKey.encryptedKey, iv := apiKey.iv,
          authTag := apiKey.authTag } with
    | none => fail DECRYPT_ERROR st1
    | some decryptedKey =>
        if mc.provider ∈ KNOWN_PROVIDERS then
          let req : CompleteRequest :=
            { messages := [("user", prompt)], model := mc.model,
              apiKey := decryptedKey, baseUrl := apiKey.baseUrl }
          let st2 := { st1 with adapterCalls := st1.adapterCalls ++ [req] }
          match env.adapterComplete req with
          | .error errorMessage => fail errorMessage st2
          | .ok response =>
              let inputTokens :=
                response.inputTokens.getD (estimateTokenCount prompt)
              let outputTokens :=
                response.outputTokens.getD (estimateTokenCount response.output)
              let tokensEstimated :=
                response.tokensEstimated || response.inputTokens == none
              let cr := calculateCost mc.provider mc.model inputTokens outputTokens
              let validation :=
                validateOutput response.output expectedContains jsonSchema
                  env.jsonValidate
              let st3 := { st2 with runs := updateRun st2.runs runId (fun r =>
                  pushStatus "completed" { r with
                    output := some response.output,
                    latencyMs := some env.nowLatency,
                    inputTokens := some inputTokens,
                    outputTokens := some outputTokens,
                    totalTokens := some (inputTokens + outputTokens),
                    tokensEstimated := some tokensEstimated,
                    estimatedCost := some cr.cost,
                    costEstimated := some cr.isEstimated,
                    passed := validation.map (fun v => v.passed),
                    validationNotes := validation.map (fun v => v.notes) }) }
              ({ id := renderRunId runId, status := "completed",
                 provider := mc.provider, model := mc.model,
                 output := some response.output, errorMessage := none,
                 latencyMs := some env.nowLatency,
                 inputTokens := some inputTokens,
                 outputTokens := some outputTokens,
                 estimatedCost := some cr.cost,
                 passed := validation.map (fun v => v.passed),
                 validationNotes := validation.map (fun v => v.notes) },
               st3)
        else fail ("Provider " ++ mc.provider ++ " not found") st1

/-- The credential-failure result pushed when `apiKeyMap.get` misses. -/
def keyNotFoundResult (mc : ModelConfig) : RunResult :=
  { id := "", status := "failed", provider := mc.provider, model := mc.model,
    output := none, errorMessage := some "API key not found or inactive",
    latencyMs := none, inputTokens := none, outputTokens := none,
    estimatedCost := none, passed := none, validationNotes := none }

/-- The bulk credential lookup of `runTest`: ids referenced by the model
configs, owned by the caller, `isActive = true`. -/
def keysFor (env : Env) (o : RunOptions) : List ApiKeyRow :=
  env.apiKeys.filter (fun k =>
    (o.modelConfigs.map (fun mc => mc.apiKeyId)).contains k.id
      && k.userId == o.userId && k.isActive)

/-- The `prisma.run.create` argument of the batch loop: a `pending`
record carrying prompt, merged variables, batch id and batch index. -/
def newRunRow (o : RunOptions) (mc : ModelConfig) (prompt : String)
    (mv : List (String × String)) (batchId : String) (bi : ℕ) (id : ℕ) :
    RunRow :=
  { id := id, userId := o.userId, testId := some o.testId,
    apiKeyId := mc.apiKeyId, provider := mc.provider, model := mc.model,
    prompt := prompt, inputVariables := mv, statusHistory := ["pending"],
    batchId := some batchId, batchIndex := some bi, isDryRun := o.isDryRun,
    output := none, errorMessage := none, latencyMs := none,
    inputTokens := none, outputTokens := none, totalTokens := none,
    tokensEstimated := none, estimatedCost := none, costEstimated := none,
    passed := none, validationNotes := none }

/-- Insert a freshly created row and advance the id counter. -/
def createRun (st : St) (row : RunRow) : St :=
  { rate := st.rate, runs := st.runs ++ [row],
    nextRunId := st.nextRunId + 1, adapterCalls := st.adapterCalls }

/-- The nested `for` loops of `runTest`, linearised over the repetition
× selection pairs.  Per pair: rate-limit re-check (non-dry-run only,
aborting the whole call by throwing when exceeded), credential lookup
(missing → sentinel result, loop continues), record creation in
`pending` and execution.  `batchIndex` advances only when a record is
created, as in the source. -/
def runLoop (env : Env) (o : RunOptions) (test : TestRow) (prompt : String)
    (mergedVars : List (String × String)) (batchId : String)
    (keys : List ApiKeyRow) :
    List ModelConfig → List RunResult → ℕ → St →
      Except String (List RunResult) × St
  | [], results, _, st => (.ok results, st)
  | mc :: pairs, results, batchIndex, st =>
      let checked :=
        if o.isDryRun then (false, st)
        else
          let rc := checkRateLimit st.rate o.userId env.windowKey false
          (!rc.1.allowed, { st with rate := rc.2 })
      if checked.1 then
        (.error ("Rate limit exceeded after " ++ toString results.length
          ++ " runs. Results so far have been saved."), checked.2)
      else
        let st1 := checked.2
        match keys.find? (fun k => k.id == mc.apiKeyId) with
        | none =>
            runLoop env o test prompt mergedVars batchId keys pairs
              (results ++ [keyNotFoundResult mc]) batchIndex st1
        | some apiKey =>
            let row := newRunRow o mc prompt mergedVars batchId batchIndex
              st1.nextRunId
            let step := executeRun env row.id prompt mc apiKey
              test.expectedContains test.jsonSchema o.isDryRun
              (createRun st1 row)
            runLoop env o test prompt mergedVars batchId keys pairs
              (results ++ [step.1]) (batchIndex + 1) step.2

/-- Function `runTest` of `src/lib/test-runner.ts`: admission rate check
(performed for dry runs too), test resolution scoped to the user,
variable merge and substitution, one shared batch id, bulk credential
lookup, then the sequential loop.  Thrown errors are the `.error`
branch. -/
def runTest (env : Env) (st : St) (o : RunOptions) :
    Except String (List RunResult) × St :=
  let rc := checkRateLimit st.rate o.userId env.windowKey false
  let st0 := { st with rate := rc.2 }
  if !rc.1.allowed then
    (.error "Rate limit exceeded. Please wait a minute before running more tests.",
     st0)
  else
    match env.tests.find? (fun t => t.id == o.testId) with
    | none => (.error "Test not found", st0)
    | some test =>
        if test.userId ≠ o.userId then (.error "Test not found", st0)
        else
          let mergedVariables := mergeVars test.vars o.vars
          let prompt := substituteVariables test.basePrompt mergedVariables
          let batchId := "batch_" ++ env.batchIdSeed
          let keys := keysFor env o
          runLoop env o test prompt mergedVariables batchId keys
            (List.flatten (List.replicate o.batchCount o.modelConfigs)) [] 0 st0

/-- Function `runAdHocPrompt` of `src/lib/test-runner.ts`: the rate check is
skipped entirely for dry runs; a missing credential returns the
sentinel result (not an error); otherwise one record is created (no
test id, no batch fields) and executed. -/
def runAdHocPrompt (env : Env) (st : St) (userId prompt : String)
    (mc : ModelConfig) (isDryRun : Bool) : Except String RunResult × St :=
  let checked :=
    if isDryRun then (false, st)
    else
      let rc := checkRateLimit st.rate userId env.windowKey false
      (!rc.1.allowed, { st with rate := rc.2 })
  if checked.1 then
    (.error "Rate limit exceeded. Please wait a minute before running more tests.",
     checked.2)
  else
    let st1 := checked.2
    match env.apiKeys.find? (fun k =>
        k.id == mc.apiKeyId && k.userId == userId && k.isActive) with
    | none => (.ok (keyNotFoundResult mc), st1)
    | some apiKey =>
        let row : RunRow :=
          { id := st1.nextRunId, userId := userId, testId := none,
            apiKeyId := mc.apiKeyId, provider := mc.provider,
            model := mc.model, prompt := prompt, inputVariables := [],
            statusHistory := ["pending"], batchId := none, batchIndex := none,
            isDryRun := isDryRun, output := none, errorMessage := none,
            latencyMs := none, inputTokens := none, outputTokens := none,
            totalTokens := none, tokensEstimated := none,
            estimatedCost := none, costEstimated := none, passed := none,
            validationNotes := none }
        let st2 : St :=
          { rate := st1.rate, runs := st1.runs ++ [row],
            nextRunId := st1.nextRunId + 1, adapterCalls := st1.adapterCalls }
        let step := executeRun env row.id prompt mc apiKey none none isDryRun st2
        (.ok step.1, step.2)

/-! ### Concrete fixtures shared by witnesses and counterexamples -/

def encKeyFx : List ℕ := [1, 2, 3, 4]

def ivFx : List ℕ := [0, 1, 2, 3, 4, 5, 6, 7, 8, 9, 10, 11]

def encFx : EncryptedData := encryptApiKey encKeyFx ivFx "sk-live-12345678"

def keyRow1 : ApiKeyRow :=
  { id := "k1", userId := "u1", encryptedKey := encFx.encryptedKey,
    iv := encFx.iv, authTag := encFx.authTag, baseUrl := none, isActive := true }

def keyRow2 : ApiKeyRow :=
  { id := "k2", userId := "u1", encryptedKey := encFx.encryptedKey,
    iv := encFx.iv, authTag := encFx.authTag, baseUrl := none, isActive := false }

def keyRow3 : ApiKeyRow :=
  { id := "k3", userId := "u1", encryptedKey := encFx.encryptedKey,
    iv := encFx.iv, authTag := encFx.authTag, baseUrl := none, isActive := true }

def testFx : TestRow :=
  { id := "t1", userId := "u1", basePrompt := "Say hi to {{name}}",
    vars := [("name", "world")], expectedContains := none, jsonSchema := none }

def adapterOk : CompleteRequest → Except String CompleteResponse := fun _ =>
  .ok { output := "The answer is 42", inputTokens := some 10,
        outputTokens := some 5, totalTokens := some 15,
        tokensEstimated := false, finishReason := some "stop" }

def ajvStub : String → String → ValidationResult := fun _ _ =>
  { passed := true, notes := "Output matches JSON schema" }

def envFx : Env :=
  { tests := [testFx], apiKeys := [keyRow1, keyRow2, keyRow3],
    adapterComplete := adapterOk, jsonValidate := ajvStub, encKey := encKeyFx,
    nowLatency := 42, batchIdSeed := "17001_abc123",
    windowKey := "2026-01-05T12:00" }

def stEmpty : St := { rate := [], runs := [], nextRunId := 0, adapterCalls := [] }

def mcK (keyId : String) : ModelConfig :=
  { provider := "openai", model := "gpt-4o", apiKeyId := keyId }

def optsFx (configs : List ModelConfig) (dry : Bool) : RunOptions :=
  { testId := "t1", modelConfigs := configs, vars := [("name", "Ada")],
    batchCount := 1, isDryRun := dry, userId := "u1" }

theorem checkRateLimit_allowed (t : RateTable) (u w : String) :
    (checkRateLimit t u w false).1.allowed = decide (rateCount t u w + 1 ≤ 10) := by
  simp [checkRateLimit, rateUpsert_fst, MAX_RUNS_PER_MINUTE]

theorem updateRun_rfl (runs : List RunRow) (id : ℕ) (f : RunRow → RunRow)
    (h : ∀ r ∈ runs, r.id ≠ id) : updateRun runs id f = runs := by
  induction runs with
  | nil => rfl
  | cons r rest ih =>
      rw [updateRun, List.map_cons, if_neg (h r (List.mem_cons_self r rest))]
      have := ih (fun x hx => h x (List.mem_cons_of_mem r hx))
      rw [updateRun] at this
      rw [this]

theorem updateRun_append (A B : List RunRow) (id : ℕ) (f : RunRow → RunRow) :
    updateRun (A ++ B) id f = updateRun A id f ++ updateRun B id f := by
  simp [updateRun]

theorem updateRun_length (runs : List RunRow) (id : ℕ) (f : RunRow → RunRow) :
    (updateRun runs id f).length = runs.length := by
  simp [updateRun]

theorem updateRun_single (A : List RunRow) (row : RunRow) (f : RunRow → RunRow)
    (hA : ∀ r ∈ A, r.id ≠ row.id) :
    updateRun (A ++ [row]) row.id f = A ++ [f row] := by
  rw [updateRun_append, updateRun_rfl A row.id f hA]
  simp [updateRun]

theorem executeRun_rate (env : Env) (runId : ℕ) (prompt : String)
    (mc : ModelConfig) (apiKey : ApiKeyRow) (ec js : Option String)
    (isDry : Bool) (st : St) :
    (executeRun env runId prompt mc apiKey ec js isDry st).2.rate = st.rate := by
  rw [executeRun]
  cases isDry
  · simp only [Bool.false_eq_true, if_false]
    cases hdec : decryptApiKey env.encKey
        { encryptedKey := apiKey.encryptedKey, iv := apiKey.iv,
          authTag := apiKey.authTag } with
    | none => rfl
    | some k =>
        by_cases hp : mc.provider ∈ KNOWN_PROVIDERS
        · simp only [hp, if_true]
          cases env.adapterComplete
              { messages := [("user", prompt)], model := mc.model,
                apiKey := k, baseUrl := apiKey.baseUrl } <;> rfl
        · simp only [hp, if_false]
  · rfl

theorem executeRun_nextRunId (env : Env) (runId : ℕ) (prompt : String)
    (mc : ModelConfig) (apiKey : ApiKeyRow) (ec js : Option String)
    (isDry : Bool) (st : St) :
    (executeRun env runId prompt mc apiKey ec js isDry st).2.nextRunId
      = st.nextRunId := by
  rw [executeRun]
  cases isDry
  · simp only [Bool.false_eq_true, if_false]
    cases hdec : decryptApiKey env.encKey
        { encryptedKey := apiKey.encryptedKey, iv := apiKey.iv,
          authTag := apiKey.authTag } with
    | none => rfl
    | some k =>
        by_cases hp : mc.provider ∈ KNOWN_PROVIDERS
        · simp only [hp, if_true]
          cases env.adapterComplete
              { messages := [("user", prompt)], model := mc.model,
                apiKey := k, baseUrl := apiKey.baseUrl } <;> rfl
        · simp only [hp, if_false]
  · rfl

theorem executeRun_id (env : Env) (runId : ℕ) (prompt : String)
    (mc : ModelConfig) (apiKey : ApiKeyRow) (ec js : Option String)
    (isDry : Bool) (st : St) :
    (executeRun env runId prompt mc apiKey ec js isDry st).1.id
      = renderRunId runId := by
  rw [executeRun]
  cases isDry
  · simp only [Bool.false_eq_true, if_false]
    cases hdec : decryptApiKey env.encKey
        { encryptedKey := apiKey.encryptedKey, iv := apiKey.iv,
          authTag := apiKey.authTag } with
    | none => rfl
    | some k =>
        by_cases hp : mc.provider ∈ KNOWN_PROVIDERS
        · simp only [hp, if_true]
          cases env.adapterComplete
              { messages := [("user", prompt)], model := mc.model,
                apiKey := k, baseUrl := apiKey.baseUrl } <;> rfl
        · simp only [hp, if_false]
  · rfl

theorem executeRun_runs_length (env : Env) (runId : ℕ) (prompt : String)
    (mc : ModelConfig) (apiKey : ApiKeyRow) (ec js : Option String)
    (isDry : Bool) (st : St) :
    (executeRun env runId prompt mc apiKey ec js isDry st).2.runs.length
      = st.runs.length := by
  rw [executeRun]
  cases isDry
  · simp only [Bool.false_eq_true, if_false]
    cases hdec : decryptApiKey env.encKey
        { encryptedKey := apiKey.encryptedKey, iv := apiKey.iv,
          authTag := apiKey.authTag } with
    | none => simp [updateRun_length]
    | some k =>
        by_cases hp : mc.provider ∈ KNOWN_PROVIDERS
        · simp only [hp, if_true]
          cases env.adapterComplete
              { messages := [("user", prompt)], model := mc.model,
                apiKey := k, baseUrl := apiKey.baseUrl } <;>
            simp [updateRun_length]
        · simp only [hp, if_false]
          simp [updateRun_length]
  · simp [updateRun_length]

theorem updateRun_find (runs : List RunRow) (id : ℕ) (f : RunRow → RunRow)
    (hf : ∀ r, (f r).id = r.id) :
    (updateRun runs id f).find? (fun r => r.id == id)
      = (runs.find? (fun r => r.id == id)).map f := by
  induction runs with
  | nil => rfl
  | cons r rest ih =>
      rw [updateRun, List.map_cons]
      by_cases h : r.id = id
      · rw [if_pos h]
        rw [List.find?_cons_of_pos _ (by simp [hf, h])]
        rw [List.find?_cons_of_pos _ (by simp [h])]
        rfl
      · rw [if_neg h]
        rw [List.find?_cons_of_neg _ (by simp [h])]
        rw [List.find?_cons_of_neg _ (by simp [h])]
        exact ih

/-- Shape of every `executeRun` outcome on the store: the record is
pushed to `running`, then one terminal status is pushed by a field
update, by case analysis on the source's branches. -/
theorem executeRun_shape (env : Env) (runId : ℕ) (prompt : String)
    (mc : ModelConfig) (apiKey : ApiKeyRow) (ec js : Option String)
    (isDry : Bool) (st : St) :
    ∃ (final : String) (upd : RunRow → RunRow),
      (executeRun env runId prompt mc apiKey ec js isDry st).2.runs
        = updateRun (updateRun st.runs runId (pushStatus "running")) runId upd
      ∧ (∀ r, (upd r).id = r.id)
      ∧ (∀ r, (upd r).statusHistory = r.statusHistory ++ [final])
      ∧ (final = "completed" ∨ final = "failed" ∨ final = "dry_run")
      ∧ (isDry = true → final = "dry_run") := by
  rw [executeRun]
  cases isDry
  · simp only [Bool.false_eq_true, if_false]
    cases hdec : decryptApiKey env.encKey
        { encryptedKey := apiKey.encryptedKey, iv := apiKey.iv,
          authTag := apiKey.authTag } with
    | none =>
        exact ⟨"failed", _, rfl, fun r => rfl, fun r => rfl,
          Or.inr (Or.inl rfl), by simp⟩
    | some k =>
        by_cases hp : mc.provider ∈ KNOWN_PROVIDERS
        · simp only [hp, if_true]
          cases env.adapterComplete
              { messages := [("user", prompt)], model := mc.model,
                apiKey := k, baseUrl := apiKey.baseUrl } with
          | error msg =>
              exact ⟨"failed", _, rfl, fun r => rfl, fun r => rfl,
                Or.inr (Or.inl rfl), by simp⟩
          | ok response =>
              exact ⟨"completed", _, rfl, fun r => rfl, fun r => rfl,
                Or.inl rfl, by simp⟩
        · simp only [hp, if_false]
          exact ⟨"failed", _, rfl, fun r => rfl, fun r => rfl,
            Or.inr (Or.inl rfl), by simp⟩
  · exact ⟨"dry_run", _, rfl, fun r => rfl, fun r => rfl,
      Or.inr (Or.inr rfl), fun _ => rfl⟩

/-- C2 (amended): every RunRecord touched by `executeRun` follows
`pending → running → {completed | failed | dry_run}`, and a dry-run
execution terminates in `dry_run` — but it does **not** bypass
`running`: the source sets `status: 'running'` unconditionally before
the dry-run branch, so dry runs also pass through `running`. -/
theorem executeRun_statuses :
    ∀ (env : Env) (runId : ℕ) (prompt : String) (mc : ModelConfig)
      (apiKey : ApiKeyRow) (ec js : Option String) (isDry : Bool) (st : St)
      (row : RunRow),
      st.runs.find? (fun r => r.id == runId) = some row →
      row.statusHistory = ["pending"] →
      ∃ (row' : RunRow) (final : String),
        (executeRun env runId prompt mc apiKey ec js isDry st).2.runs.find?
            (fun r => r.id == runId) = some row'
        ∧ row'.statusHistory = ["pending", "running", final]
        ∧ (final = "completed" ∨ final = "failed" ∨ final = "dry_run")
        ∧ (isDry = true → final = "dry_run") := by
  intro env runId prompt mc apiKey ec js isDry st row hrow hhist
  obtain ⟨final, upd, hruns, hid, hupd, hmem, hdry⟩ :=
    executeRun_shape env runId prompt mc apiKey ec js isDry st
  refine ⟨upd (pushStatus "running" row), final, ?_, ?_, hmem, hdry⟩
  · rw [hruns, updateRun_find _ _ _ hid,
      updateRun_find st.runs runId (pushStatus "running") (fun r => rfl), hrow]
    rfl
  · rw [hupd]
    simp [pushStatus, hhist]

instance {α β : Type} [DecidableEq α] [DecidableEq β] :
    DecidableEq (Except α β) := fun x y =>
  match x, y with
  | .ok a, .ok b => decidable_of_iff (a = b) (by simp)
  | .error a, .error b => decidable_of_iff (a = b) (by simp)
  | .ok _, .error _ => isFalse (by simp)
  | .error _, .ok _ => isFalse (by simp)

def stRate (n : ℕ) : St :=
  { rate := [(("u1", "2026-01-05T12:00"), n)], runs := [], nextRunId := 0,
    adapterCalls := [] }

def row0Fx : RunRow :=
  { id := 0, userId := "u1", testId := some "t1", apiKeyId := "k1",
    provider := "openai", model := "gpt-4o", prompt := "hi",
    inputVariables := [], statusHistory := ["pending"], batchId := none,
    batchIndex := some 0, isDryRun := true, output := none,
    errorMessage := none, latencyMs := none, inputTokens := none,
    outputTokens := none, totalTokens := none, tokensEstimated := none,
    estimatedCost := none, costEstimated := none, passed := none,
    validationNotes := none }

def stWithRow : St :=
  { rate := [], runs := [row0Fx], nextRunId := 1, adapterCalls := [] }

/-- Witness for C2 (amended) at a concrete pending record and dry run. -/
theorem executeRun_statuses_witness :
    ((executeRun envFx 0 "hi" (mcK "k1") keyRow1 none none true
        stWithRow).2.runs.find? (fun r => r.id == 0)).map
      (fun r => r.statusHistory) = some ["pending", "running", "dry_run"] := by
  obtain ⟨row', final, hf, hh, hmem, hdry⟩ :=
    executeRun_statuses envFx 0 "hi" (mcK "k1") keyRow1 none none true
      stWithRow row0Fx rfl rfl
  rw [hf]
  show some row'.statusHistory = some ["pending", "running", "dry_run"]
  rw [hh, hdry rfl]

set_option maxRecDepth 8192 in
/-- C2 (counterexample): a dry-run `runTest` leaves the record's status
history `["pending", "running", "dry_run"]` — the record **does** enter
`running` on its way to `dry_run`, contradicting "a dry-run execution
never enters the running state". -/
theorem executeRun_dry_counterexample :
    ((runTest envFx stEmpty (optsFx [mcK "k1"] true)).2.runs.map
        (fun r => r.statusHistory)) = [["pending", "running", "dry_run"]] := by
  decide

set_option maxRecDepth 8192 in
/-- C1 (counterexample): with the per-user counter at 8, a two-pair
batch admits, executes the first pair, then hits the rate limit before
the second — and `runTest` **raises** (the `.error` branch, modelling
the thrown `Error`) instead of returning the one-element result list;
the one persisted RunRecord shows a result had been produced. -/
theorem runTest_midbatch_counterexample :
    (runTest envFx (stRate 8) (optsFx [mcK "k1", mcK "k1"] false)).1
      = .error "Rate limit exceeded after 1 runs. Results so far have been saved."
    ∧ (runTest envFx (stRate 8) (optsFx [mcK "k1", mcK "k1"] false)).2.runs.length
      = 1 := by
  constructor
  · decide
  · decide

set_option maxRecDepth 8192 in
/-- C8 (counterexample): a dry-run `runTest` whose single selection
references an inactive credential returns a result with
`status = "failed"` (the sentinel credential-failure result), not
`"dry_run"` — so "every result has status dry_run" fails. -/
theorem runTest_dry_counterexample :
    (runTest envFx stEmpty (optsFx [mcK "k2"] true)).1
      = .ok [keyNotFoundResult (mcK "k2")]
    ∧ (keyNotFoundResult (mcK "k2")).status ≠ "dry_run" := by
  constructor
  · decide
  · decide

theorem executeRun_dry_eq (env : Env) (runId : ℕ) (prompt : String)
    (mc : ModelConfig) (apiKey : ApiKeyRow) (ec js : Option String) (st : St) :
    executeRun env runId prompt mc apiKey ec js true st
      = ({ id := renderRunId runId, status := "dry_run",
           provider := mc.provider, model := mc.model, output := none,
           errorMessage := none, latencyMs := none,
           inputTokens := some (estimateTokenCount prompt),
           outputTokens := none,
           estimatedCost := some (calculateCost mc.provider mc.model
             (estimateTokenCount prompt) 500).cost,
           passed := none, validationNotes := none },
         { rate := st.rate,
           runs := updateRun (updateRun st.runs runId (pushStatus "running"))
             runId (fun r => pushStatus "dry_run"
               { r with
                 inputTokens := some (estimateTokenCount prompt),
                 outputTokens := none,
                 estimatedCost := some (calculateCost mc.provider mc.model
                   (estimateTokenCount prompt) 500).cost,
                 tokensEstimated := some true, costEstimated := some true,
                 isDryRun := true }),
           nextRunId := st.nextRunId, adapterCalls := st.adapterCalls }) := rfl

theorem runLoop_dry (env : Env) (o : RunOptions) (test : TestRow)
    (prompt : String) (mv : List (String × String)) (batchId : String)
    (keys : List ApiKeyRow) (hdry : o.isDryRun = true) :
    ∀ (pairs : List ModelConfig) (results : List RunResult) (bi : ℕ) (st : St),
      ∃ (produced : List RunResult) (stEnd : St),
        runLoop env o test prompt mv batchId keys pairs results bi st
          = (.ok (results ++ produced), stEnd)
        ∧ stEnd.adapterCalls = st.adapterCalls
        ∧ stEnd.rate = st.rate
        ∧ produced.length = pairs.length
        ∧ ∀ r ∈ produced,
            (r.id = "" ∧ r.status = "failed"
              ∧ r.errorMessage = some "API key not found or inactive")
            ∨ (r.status = "dry_run" ∧ r.outputTokens = none
              ∧ r.inputTokens = some (estimateTokenCount prompt)
              ∧ r.estimatedCost = some (calculateCost r.provider r.model
                  (estimateTokenCount prompt) 500).cost) := by
  intro pairs
  induction pairs with
  | nil =>
      intro results bi st
      exact ⟨[], st, by simp [runLoop], rfl, rfl, rfl, by simp⟩
  | cons mc pairs ih =>
      intro results bi st
      rw [runLoop]
      simp only [hdry, if_true, Bool.false_eq_true, if_false]
      cases hfind : keys.find? (fun k => k.id == mc.apiKeyId) with
      | none =>
          obtain ⟨produced, stEnd, heq, hcalls, hrate, hlen, hmem⟩ :=
            ih (results ++ [keyNotFoundResult mc]) bi st
          refine ⟨keyNotFoundResult mc :: produced, stEnd, ?_, hcalls, hrate,
            by simp [hlen], ?_⟩
          · rw [heq]
            simp
          · intro r hr
            rcases List.mem_cons.mp hr with rfl | hr'
            · exact Or.inl ⟨rfl, rfl, rfl⟩
            · exact hmem r hr'
      | some apiKey =>
          obtain ⟨produced, stEnd, heq, hcalls, hrate, hlen, hmem⟩ :=
            ih (results ++ [(executeRun env
                (newRunRow o mc prompt mv batchId bi st.nextRunId).id prompt mc
                apiKey test.expectedContains test.jsonSchema true
                (createRun st (newRunRow o mc prompt mv batchId bi
                  st.nextRunId))).1])
              (bi + 1)
              (executeRun env
                (newRunRow o mc prompt mv batchId bi st.nextRunId).id prompt mc
                apiKey test.expectedContains test.jsonSchema true
                (createRun st (newRunRow o mc prompt mv batchId bi
                  st.nextRunId))).2
          refine ⟨(executeRun env
              (newRunRow o mc prompt mv batchId bi st.nextRunId).id prompt mc
              apiKey test.expectedContains test.jsonSchema true
              (createRun st (newRunRow o mc prompt mv batchId bi
                st.nextRunId))).1 :: produced, stEnd, ?_, ?_, ?_,
            by simp [hlen], ?_⟩
          · simp only []
            rw [heq]
            simp
          · exact hcalls
          · exact hrate
          · intro r hr
            rcases List.mem_cons.mp hr with rfl | hr'
            · exact Or.inr ⟨rfl, rfl, rfl, rfl⟩
            · exact hmem r hr'

theorem length_flatten_replicate {α : Type} (n : ℕ) (l : List α) :
    (List.flatten (List.replicate n l)).length = n * l.length := by
  induction n with
  | zero => simp
  | succ n ih => simp [List.replicate_succ, ih, Nat.succ_mul]; omega

/-- C8 (amended): a dry-run `runTest` call performs no adapter network
call, and every result whose stored credential resolved has status
`dry_run`, `outputTokens = null`, `inputTokens = ceil(len(prompt)/4)`
and `estimatedCost = calculateCost(inputEstimate, 500)`; a result whose
credential is missing or inactive is the usual credential-failure
sentinel (`id = ""`, status `failed`), not a `dry_run` result. -/
theorem runTest_dry_amended :
    ∀ (env : Env) (st : St) (o : RunOptions) (test : TestRow),
      o.isDryRun = true →
      rateCount st.rate o.userId env.windowKey + 1 ≤ 10 →
      env.tests.find? (fun t => t.id == o.testId) = some test →
      test.userId = o.userId →
      ∃ (results : List RunResult) (stEnd : St),
        runTest env st o = (.ok results, stEnd)
        ∧ stEnd.adapterCalls = st.adapterCalls
        ∧ results.length = o.batchCount * o.modelConfigs.length
        ∧ ∀ r ∈ results,
            (r.id = "" ∧ r.status = "failed"
              ∧ r.errorMessage = some "API key not found or inactive")
            ∨ (r.status = "dry_run" ∧ r.outputTokens = none
              ∧ r.inputTokens = some (estimateTokenCount
                  (substituteVariables test.basePrompt
                    (mergeVars test.vars o.vars)))
              ∧ r.estimatedCost = some (calculateCost r.provider r.model
                  (estimateTokenCount (substituteVariables test.basePrompt
                    (mergeVars test.vars o.vars))) 500).cost) := by
  intro env st o test hdry hrate hfind huser
  have hallow : (checkRateLimit st.rate o.userId env.windowKey false).1.allowed
      = true := by
    rw [checkRateLimit_allowed]
    simp only [decide_eq_true_eq]
    exact hrate
  rw [runTest]
  simp only [hallow, Bool.not_true, Bool.false_eq_true, if_false, hfind]
  rw [if_neg (by simp [huser])]
  obtain ⟨produced, stEnd, heq, hcalls, hrateEnd, hlen, hmem⟩ :=
    runLoop_dry env o test
      (substituteVariables test.basePrompt (mergeVars test.vars o.vars))
      (mergeVars test.vars o.vars) ("batch_" ++ env.batchIdSeed)
      (keysFor env o) hdry
      (List.flatten (List.replicate o.batchCount o.modelConfigs)) [] 0
      { st with rate := (checkRateLimit st.rate o.userId env.windowKey false).2 }
  refine ⟨produced, stEnd, ?_, ?_, ?_, hmem⟩
  · simpa using heq
  · exact hcalls
  · rw [hlen, length_flatten_replicate]

/-- Witness for C8 (amended): one active-credential dry run makes zero
adapter calls and returns exactly one result. -/
theorem runTest_dry_amended_witness :
    (runTest envFx stEmpty (optsFx [mcK "k1"] true)).2.adapterCalls = []
    ∧ (runTest envFx stEmpty (optsFx [mcK "k1"] true)).1.map List.length
      = .ok 1 := by
  obtain ⟨results, stEnd, heq, hcalls, hlen, hmem⟩ :=
    runTest_dry_amended envFx stEmpty (optsFx [mcK "k1"] true) testFx rfl
      (by decide) rfl rfl
  constructor
  · rw [heq]
    exact hcalls
  · rw [heq]
    show Except.ok results.length = Except.ok 1
    rw [hlen]
    rfl

/-- Ids of persisted rows are strictly below the fresh-id counter. -/
def FreshIds (st : St) : Prop := ∀ r ∈ st.runs, r.id < st.nextRunId

theorem runLoop_midbatch (env : Env) (o : RunOptions) (test : TestRow)
    (prompt : String) (mv : List (String × String)) (batchId : String)
    (keys : List ApiKeyRow) (hdry : o.isDryRun = false) :
    ∀ (pairs : List ModelConfig) (results : List RunResult) (bi : ℕ) (st : St),
      pairs ≠ [] →
      10 < rateCount st.rate o.userId env.windowKey + pairs.length →
      FreshIds st →
      ∃ (extra : List RunRow) (stMid : St),
        runLoop env o test prompt mv batchId keys pairs results bi st
          = (.error ("Rate limit exceeded after "
              ++ toString (results.length
                + (10 - rateCount st.rate o.userId env.windowKey))
              ++ " runs. Results so far have been saved."), stMid)
        ∧ stMid.runs = st.runs ++ extra := by
  intro pairs
  induction pairs with
  | nil =>
      intro results bi st hne
      exact absurd rfl hne
  | cons mc pairs ih =>
      intro results bi st hne hover hfresh
      rw [runLoop]
      simp only [hdry, Bool.false_eq_true, if_false]
      by_cases hcase : rateCount st.rate o.userId env.windowKey + 1 ≤ 10
      · have hallow : (checkRateLimit st.rate o.userId env.windowKey
            false).1.allowed = true := by
          rw [checkRateLimit_allowed]
          simp only [decide_eq_true_eq]
          exact hcase
        simp only [hallow, Bool.not_true, Bool.false_eq_true, if_false]
        have hrc1 : rateCount
            (checkRateLimit st.rate o.userId env.windowKey false).2
            o.userId env.windowKey
            = rateCount st.rate o.userId env.windowKey + 1 :=
          checkRateLimit_count st.rate o.userId env.windowKey
        have hne' : pairs ≠ [] := by
          intro hnil
          subst hnil
          simp at hover
          omega
        cases hfind : keys.find? (fun k => k.id == mc.apiKeyId) with
        | none =>
            obtain ⟨extra, stMid, heq, hruns⟩ :=
              ih (results ++ [keyNotFoundResult mc]) bi
                { st with rate :=
                    (checkRateLimit st.rate o.userId env.windowKey false).2 }
                hne' (by rw [hrc1]; simp at hover ⊢; omega) hfresh
            rw [hrc1] at heq
            have harg : (results ++ [keyNotFoundResult mc]).length
                + (10 - (rateCount st.rate o.userId env.windowKey + 1))
                = results.length
                  + (10 - rateCount st.rate o.userId env.windowKey) := by
              simp
              omega
            rw [harg] at heq
            refine ⟨extra, stMid, ?_, hruns⟩
            rw [heq]
        | some apiKey =>
            obtain ⟨final, upd, hrunsEq, hid, hhistUpd, hfinmem, hfindry⟩ :=
              executeRun_shape env
                (newRunRow o mc prompt mv batchId bi st.nextRunId).id prompt mc
                apiKey test.expectedContains test.jsonSchema o.isDryRun
                (createRun
                  { st with rate :=
                      (checkRateLimit st.rate o.userId env.windowKey false).2 }
                  (newRunRow o mc prompt mv batchId bi st.nextRunId))
            have hA : ∀ r ∈ st.runs,
                r.id ≠ (newRunRow o mc prompt mv batchId bi st.nextRunId).id := by
              intro r hr
              exact Nat.ne_of_lt (hfresh r hr)
            have hrunsStep : (executeRun env
                (newRunRow o mc prompt mv batchId bi st.nextRunId).id prompt mc
                apiKey test.expectedContains test.jsonSchema o.isDryRun
                (createRun
                  { st with rate :=
                      (checkRateLimit st.rate o.userId env.windowKey false).2 }
                  (newRunRow o mc prompt mv batchId bi st.nextRunId))).2.runs
                = st.runs ++ [upd (pushStatus "running"
                    (newRunRow o mc prompt mv batchId bi st.nextRunId))] := by
              rw [hrunsEq]
              have h1 : (createRun
                  { st with rate :=
                      (checkRateLimit st.rate o.userId env.windowKey false).2 }
                  (newRunRow o mc prompt mv batchId bi st.nextRunId)).runs
                  = st.runs ++ [newRunRow o mc prompt mv batchId bi st.nextRunId] :=
                rfl
              rw [h1, updateRun_single st.runs _ _ hA]
              have h2 : (pushStatus "running"
                  (newRunRow o mc prompt mv batchId bi st.nextRunId)).id
                  = (newRunRow o mc prompt mv batchId bi st.nextRunId).id := rfl
              rw [← h2] at hA ⊢
              rw [updateRun_single st.runs _ _ hA]
            have hrateStep : (executeRun env
                (newRunRow o mc prompt mv batchId bi st.nextRunId).id prompt mc
                apiKey test.expectedContains test.jsonSchema o.isDryRun
                (createRun
                  { st with rate :=
                      (checkRateLimit st.rate o.userId env.windowKey false).2 }
                  (newRunRow o mc prompt mv batchId bi st.nextRunId))).2.rate
                = (checkRateLimit st.rate o.userId env.windowKey false).2 :=
              executeRun_rate env _ prompt mc apiKey test.expectedContains
                test.jsonSchema o.isDryRun _
            have hnextStep : (executeRun env
                (newRunRow o mc prompt mv batchId bi st.nextRunId).id prompt mc
                apiKey test.expectedContains test.jsonSchema o.isDryRun
                (createRun
                  { st with rate :=
                      (checkRateLimit st.rate o.userId env.windowKey false).2 }
                  (newRunRow o mc prompt mv batchId bi st.nextRunId))).2.nextRunId
                = st.nextRunId + 1 :=
              executeRun_nextRunId env _ prompt mc apiKey test.expectedContains
                test.jsonSchema o.isDryRun _
            have hfreshStep : FreshIds (executeRun env
                (newRunRow o mc prompt mv batchId bi st.nextRunId).id prompt mc
                apiKey test.expectedContains test.jsonSchema o.isDryRun
                (createRun
                  { st with rate :=
                      (checkRateLimit st.rate o.userId env.windowKey false).2 }
                  (newRunRow o mc prompt mv batchId bi st.nextRunId))).2 := by
              intro r hr
              rw [hrunsStep] at hr
              rw [hnextStep]
              rcases List.mem_append.mp hr with hr1 | hr2
              · exact Nat.lt_succ_of_lt (hfresh r hr1)
              · have : r = upd (pushStatus "running"
                    (newRunRow o mc prompt mv batchId bi st.nextRunId)) := by
                  simpa using hr2
                subst this
                rw [hid]
                exact Nat.lt_succ_self _
            obtain ⟨extra, stMid, heq, hruns⟩ :=
              ih (results ++ [(executeRun env
                  (newRunRow o mc prompt mv batchId bi st.nextRunId).id prompt mc
                  apiKey test.expectedContains test.jsonSchema o.isDryRun
                  (createRun
                    { st with rate :=
                        (checkRateLimit st.rate o.userId env.windowKey false).2 }
                    (newRunRow o mc prompt mv batchId bi st.nextRunId))).1])
                (bi + 1)
                (executeRun env
                  (newRunRow o mc prompt mv batchId bi st.nextRunId).id prompt mc
                  apiKey test.expectedContains test.jsonSchema o.isDryRun
                  (createRun
                    { st with rate :=
                        (checkRateLimit st.rate o.userId env.windowKey false).2 }
                    (newRunRow o mc prompt mv batchId bi st.nextRunId))).2
                hne' (by rw [hrateStep, hrc1]; simp at hover ⊢; omega) hfreshStep
            rw [hrateStep, hrc1] at heq
            have harg : (results ++ [(executeRun env
                (newRunRow o mc prompt mv batchId bi st.nextRunId).id prompt mc
                apiKey test.expectedContains test.jsonSchema o.isDryRun
                (createRun
                  { st with rate :=
                      (checkRateLimit st.rate o.userId env.windowKey false).2 }
                  (newRunRow o mc prompt mv batchId bi st.nextRunId))).1]).length
                + (10 - (rateCount st.rate o.userId env.windowKey + 1))
                = results.length
                  + (10 - rateCount st.rate o.userId env.windowKey) := by
              simp
              omega
            rw [harg] at heq
            refine ⟨upd (pushStatus "running"
                (newRunRow o mc prompt mv batchId bi st.nextRunId)) :: extra,
              stMid, ?_, ?_⟩
            · simp only []
              rw [hdry] at heq
              rw [heq]
            · rw [hruns, hrunsStep]
              simp
      · have hallow : (checkRateLimit st.rate o.userId env.windowKey
            false).1.allowed = false := by
          rw [checkRateLimit_allowed]
          simp only [decide_eq_false_iff_not]
          exact hcase
        simp only [hallow, Bool.not_false, if_true]
        have h0 : 10 - rateCount st.rate o.userId env.windowKey = 0 := by omega
        rw [h0, Nat.add_zero]
        exact ⟨[], { st with rate :=
            (checkRateLimit st.rate o.userId env.windowKey false).2 },
          rfl, by simp⟩

/-- C1 (amended): when the per-attempt rate-limit re-check fails
partway through the batch, `runTest` stops attempting the remaining
pairs, but it **raises** a rate-limit error (naming how many results had
been produced) instead of returning the result list; the RunRecords
persisted before the failure are retained in the store (no rollback) —
only the in-memory result list is lost to the caller. -/
theorem runTest_midbatch_amended :
    ∀ (env : Env) (st : St) (o : RunOptions) (test : TestRow),
      o.isDryRun = false →
      rateCount st.rate o.userId env.windowKey + 1 ≤ 10 →
      env.tests.find? (fun t => t.id == o.testId) = some test →
      test.userId = o.userId →
      FreshIds st →
      0 < o.batchCount * o.modelConfigs.length →
      10 < rateCount st.rate o.userId env.windowKey + 1
        + o.batchCount * o.modelConfigs.length →
      ∃ (extra : List RunRow) (stMid : St),
        runTest env st o
          = (.error ("Rate limit exceeded after "
              ++ toString (10 - (rateCount st.rate o.userId env.windowKey + 1))
              ++ " runs. Results so far have been saved."), stMid)
        ∧ stMid.runs = st.runs ++ extra := by
  intro env st o test hdry hadm hfind huser hfresh hpos hover
  have hallow : (checkRateLimit st.rate o.userId env.windowKey false).1.allowed
      = true := by
    rw [checkRateLimit_allowed]
    simp only [decide_eq_true_eq]
    exact hadm
  rw [runTest]
  simp only [hallow, Bool.not_true, Bool.false_eq_true, if_false, hfind]
  rw [if_neg (by simp [huser])]
  obtain ⟨extra, stMid, heq, hruns⟩ :=
    runLoop_midbatch env o test
      (substituteVariables test.basePrompt (mergeVars test.vars o.vars))
      (mergeVars test.vars o.vars) ("batch_" ++ env.batchIdSeed)
      (keysFor env o) hdry
      (List.flatten (List.replicate o.batchCount o.modelConfigs)) [] 0
      { st with rate := (checkRateLimit st.rate o.userId env.windowKey false).2 }
      (by
        intro hnil
        have h := length_flatten_replicate o.batchCount o.modelConfigs
        rw [hnil, List.length_nil] at h
        omega)
      (by
        rw [checkRateLimit_count, length_flatten_replicate]
        omega)
      hfresh
  rw [checkRateLimit_count] at heq
  simp only [List.length_nil, Nat.zero_add] at heq
  exact ⟨extra, stMid, heq, hruns⟩

/-- Witness for C1 (amended): counter at 7, three selections — two
results are produced, then the call raises naming those two. -/
theorem runTest_midbatch_amended_witness :
    (runTest envFx (stRate 7) (optsFx [mcK "k1", mcK "k1", mcK "k1"] false)).1
      = .error "Rate limit exceeded after 2 runs. Results so far have been saved." := by
  obtain ⟨extra, stMid, heq, hruns⟩ :=
    runTest_midbatch_amended envFx (stRate 7)
      (optsFx [mcK "k1", mcK "k1", mcK "k1"] false) testFx rfl (by decide)
      rfl rfl (by intro r hr; simp [stRate] at hr) (by decide) (by decide)
  rw [heq]
  rfl

theorem renderRunId_ne_empty (n : ℕ) : renderRunId n ≠ "" := by
  intro h
  have h2 := congrArg String.length h
  rw [renderRunId, String.length_append] at h2
  have h3 : "run_".length = 4 := rfl
  have h4 : "".length = 0 := rfl
  rw [h3, h4] at h2
  omega

theorem createRun_rate (st : St) (row : RunRow) :
    (createRun st row).rate = st.rate := rfl

theorem executeRun_create_runs (env : Env) (o : RunOptions) (mc : ModelConfig)
    (prompt : String) (mv : List (String × String)) (batchId : String)
    (bi : ℕ) (st1 : St) (apiKey : ApiKeyRow) (ec js : Option String)
    (d : Bool) (hfr : ∀ r ∈ st1.runs, r.id < st1.nextRunId) :
    ∃ row',
      (executeRun env (newRunRow o mc prompt mv batchId bi st1.nextRunId).id
          prompt mc apiKey ec js d
          (createRun st1 (newRunRow o mc prompt mv batchId bi
            st1.nextRunId))).2.runs
        = st1.runs ++ [row']
      ∧ row'.id = st1.nextRunId := by
  obtain ⟨final, upd, hrunsEq, hid, _, _, _⟩ :=
    executeRun_shape env (newRunRow o mc prompt mv batchId bi st1.nextRunId).id
      prompt mc apiKey ec js d
      (createRun st1 (newRunRow o mc prompt mv batchId bi st1.nextRunId))
  have hA : ∀ r ∈ st1.runs,
      r.id ≠ (newRunRow o mc prompt mv batchId bi st1.nextRunId).id :=
    fun r hr => Nat.ne_of_lt (hfr r hr)
  refine ⟨upd (pushStatus "running"
    (newRunRow o mc prompt mv batchId bi st1.nextRunId)), ?_, ?_⟩
  · rw [hrunsEq]
    have h1 : (createRun st1
        (newRunRow o mc prompt mv batchId bi st1.nextRunId)).runs
        = st1.runs ++ [newRunRow o mc prompt mv batchId bi st1.nextRunId] := rfl
    rw [h1, updateRun_single st1.runs _ _ hA]
    have h2 : (pushStatus "running"
        (newRunRow o mc prompt mv batchId bi st1.nextRunId)).id
        = (newRunRow o mc prompt mv batchId bi st1.nextRunId).id := rfl
    rw [← h2] at hA ⊢
    rw [updateRun_single st1.runs _ _ hA]
  · rw [hid]
    rfl

theorem runLoop_ok (env : Env) (o : RunOptions) (test : TestRow)
    (prompt : String) (mv : List (String × String)) (batchId : String)
    (keys : List ApiKeyRow) (hdry : o.isDryRun = false) :
    ∀ (pairs : List ModelConfig) (results : List RunResult) (bi : ℕ) (st : St),
      rateCount st.rate o.userId env.windowKey + pairs.length ≤ 10 →
      FreshIds st →
      ∃ (produced : List RunResult) (stEnd : St),
        runLoop env o test prompt mv batchId keys pairs results bi st
          = (.ok (results ++ produced), stEnd)
        ∧ stEnd.runs.length = st.runs.length
            + (pairs.filter (fun mc =>
                (keys.find? (fun k => k.id == mc.apiKeyId)).isSome)).length
        ∧ List.Forall₂ (fun (mc : ModelConfig) (r : RunResult) =>
            (keys.find? (fun k => k.id == mc.apiKeyId) = none
              ∧ r = keyNotFoundResult mc)
            ∨ ((keys.find? (fun k => k.id == mc.apiKeyId)).isSome
              ∧ r.id ≠ "")) pairs produced := by
  intro pairs
  induction pairs with
  | nil =>
      intro results bi st hcnt hfresh
      exact ⟨[], st, by simp [runLoop], by simp, List.Forall₂.nil⟩
  | cons mc pairs ih =>
      intro results bi st hcnt hfresh
      have hcase : rateCount st.rate o.userId env.windowKey + 1 ≤ 10 := by
        simp at hcnt
        omega
      have hallow : (checkRateLimit st.rate o.userId env.windowKey
          false).1.allowed = true := by
        rw [checkRateLimit_allowed]
        simp only [decide_eq_true_eq]
        exact hcase
      rw [runLoop]
      simp only [hdry, Bool.false_eq_true, if_false, hallow, Bool.not_true]
      have hrc1 : rateCount
          (checkRateLimit st.rate o.userId env.windowKey false).2
          o.userId env.windowKey
          = rateCount st.rate o.userId env.windowKey + 1 :=
        checkRateLimit_count st.rate o.userId env.windowKey
      cases hfind : keys.find? (fun k => k.id == mc.apiKeyId) with
      | none =>
          obtain ⟨produced, stEnd, heq, hlen, hrel⟩ :=
            ih (results ++ [keyNotFoundResult mc]) bi
              { st with rate :=
                  (checkRateLimit st.rate o.userId env.windowKey false).2 }
              (by rw [hrc1]; simp at hcnt ⊢; omega) hfresh
          refine ⟨keyNotFoundResult mc :: produced, stEnd, ?_, ?_, ?_⟩
          · rw [heq]
            simp
          · rw [hlen]
            simp [hfind]
          · exact List.Forall₂.cons (Or.inl ⟨hfind, rfl⟩) hrel
      | some apiKey =>
          obtain ⟨row', hrunsStep, hrowId⟩ :=
            executeRun_create_runs env o mc prompt mv batchId bi
              { st with rate :=
                  (checkRateLimit st.rate o.userId env.windowKey false).2 }
              apiKey test.expectedContains test.jsonSchema o.isDryRun hfresh
          have hnextStep := executeRun_nextRunId env
            (newRunRow o mc prompt mv batchId bi st.nextRunId).id prompt mc
            apiKey test.expectedContains test.jsonSchema o.isDryRun
            (createRun
              { st with rate :=
                  (checkRateLimit st.rate o.userId env.windowKey false).2 }
              (newRunRow o mc prompt mv batchId bi st.nextRunId))
          have hrateStep := executeRun_rate env
            (newRunRow o mc prompt mv batchId bi st.nextRunId).id prompt mc
            apiKey test.expectedContains test.jsonSchema o.isDryRun
            (createRun
              { st with rate :=
                  (checkRateLimit st.rate o.userId env.windowKey false).2 }
              (newRunRow o mc prompt mv batchId bi st.nextRunId))
          have hfreshStep : FreshIds (executeRun env
              (newRunRow o mc prompt mv batchId bi st.nextRunId).id prompt mc
              apiKey test.expectedContains test.jsonSchema o.isDryRun
              (createRun
                { st with rate :=
                    (checkRateLimit st.rate o.userId env.windowKey false).2 }
                (newRunRow o mc prompt mv batchId bi st.nextRunId))).2 := by
            intro r hr
            rw [hrunsStep] at hr
            rw [hnextStep]
            rcases List.mem_append.mp hr with hr1 | hr2
            · exact Nat.lt_succ_of_lt (hfresh r hr1)
            · have : r = row' := by simpa using hr2
              subst this
              rw [hrowId]
              exact Nat.lt_succ_self _
          obtain ⟨produced, stEnd, heq, hlen, hrel⟩ :=
            ih (results ++ [(executeRun env
                (newRunRow o mc prompt mv batchId bi st.nextRunId).id prompt mc
                apiKey test.expectedContains test.jsonSchema o.isDryRun
                (createRun
                  { st with rate :=
                      (checkRateLimit st.rate o.userId env.windowKey false).2 }
                  (newRunRow o mc prompt mv batchId bi st.nextRunId))).1])
              (bi + 1)
              (executeRun env
                (newRunRow o mc prompt mv batchId bi st.nextRunId).id prompt mc
                apiKey test.expectedContains test.jsonSchema o.isDryRun
                (createRun
                  { st with rate :=
                      (checkRateLimit st.rate o.userId env.windowKey false).2 }
                  (newRunRow o mc prompt mv batchId bi st.nextRunId))).2
              (by rw [hrateStep, createRun_rate]
                  simp only []
                  rw [hrc1]
                  simp at hcnt ⊢
                  omega)
              hfreshStep
          refine ⟨(executeRun env
              (newRunRow o mc prompt mv batchId bi st.nextRunId).id prompt mc
              apiKey test.expectedContains test.jsonSchema o.isDryRun
              (createRun
                { st with rate :=
                    (checkRateLimit st.rate o.userId env.windowKey false).2 }
                (newRunRow o mc prompt mv batchId bi st.nextRunId))).1
              :: produced, stEnd, ?_, ?_, ?_⟩
          · simp only []
            rw [hdry] at heq
            rw [heq]
            simp
            rw [hdry]
          · rw [hlen, hrunsStep]
            simp [hfind]
            omega
          · refine List.Forall₂.cons (Or.inr ⟨by simp [hfind], ?_⟩) hrel
            rw [executeRun_id]
            exact renderRunId_ne_empty _

/-- C7: a missing or inactive credential is an isolated per-attempt
failure — with three selections whose second references an inactive
credential, `runTest` returns exactly three results; the second is the
sentinel (`id = ""`, message "API key not found or inactive") and no
record is persisted for it, while the first and third are attempted
normally (persisted records, non-empty ids): exactly two records are
created. -/
theorem runTest_partial_batch :
    ∀ (env : Env) (st : St) (o : RunOptions) (test : TestRow)
      (mc1 mc2 mc3 : ModelConfig),
      o.isDryRun = false →
      o.batchCount = 1 →
      o.modelConfigs = [mc1, mc2, mc3] →
      rateCount st.rate o.userId env.windowKey = 0 →
      env.tests.find? (fun t => t.id == o.testId) = some test →
      test.userId = o.userId →
      FreshIds st →
      ((keysFor env o).find? (fun k => k.id == mc1.apiKeyId)).isSome = true →
      (keysFor env o).find? (fun k => k.id == mc2.apiKeyId) = none →
      ((keysFor env o).find? (fun k => k.id == mc3.apiKeyId)).isSome = true →
      ∃ (r1 r3 : RunResult) (stEnd : St),
        runTest env st o = (.ok [r1, keyNotFoundResult mc2, r3], stEnd)
        ∧ r1.id ≠ "" ∧ r3.id ≠ ""
        ∧ stEnd.runs.length = st.runs.length + 2 := by
  intro env st o test mc1 mc2 mc3 hdry hbc hconfigs hrate0 hfind huser hfresh
    h1 h2 h3
  have hallow : (checkRateLimit st.rate o.userId env.windowKey false).1.allowed
      = true := by
    rw [checkRateLimit_allowed, hrate0]
    decide
  rw [runTest]
  simp only [hallow, Bool.not_true, Bool.false_eq_true, if_false, hfind]
  rw [if_neg (by simp [huser])]
  rw [hbc, hconfigs]
  have hp : List.flatten (List.replicate 1 [mc1, mc2, mc3])
      = [mc1, mc2, mc3] := by simp
  rw [hp]
  obtain ⟨produced, stEnd, heq, hlen, hrel⟩ :=
    runLoop_ok env o test
      (substituteVariables test.basePrompt (mergeVars test.vars o.vars))
      (mergeVars test.vars o.vars) ("batch_" ++ env.batchIdSeed)
      (keysFor env o) hdry [mc1, mc2, mc3] [] 0
      { st with rate := (checkRateLimit st.rate o.userId env.windowKey false).2 }
      (by
        rw [checkRateLimit_count, hrate0]
        simp)
      hfresh
  cases hrel with
  | cons hR1 hrest1 =>
  cases hrest1 with
  | cons hR2 hrest2 =>
  cases hrest2 with
  | cons hR3 hrest3 =>
  cases hrest3 with
  | nil =>
  rcases hR2 with ⟨hn2, rfl⟩ | ⟨hs2, hne2⟩
  · rcases hR1 with ⟨hn1, hb1⟩ | ⟨hs1, hne1⟩
    · rw [hn1] at h1
      simp at h1
    · rcases hR3 with ⟨hn3, hb3⟩ | ⟨hs3, hne3⟩
      · rw [hn3] at h3
        simp at h3
      · refine ⟨_, _, stEnd, ?_, hne1, hne3, ?_⟩
        · rw [heq]
          simp
        · rw [hlen]
          have hflen : (List.filter (fun mc =>
              ((keysFor env o).find? (fun k => k.id == mc.apiKeyId)).isSome)
              [mc1, mc2, mc3]).length = 2 := by
            simp [List.filter_cons, h1, hn2, h3]
          rw [hflen]
  · rw [h2] at hs2
    simp at hs2

/-- Witness for C7: three selections against the fixture store, the
second referencing the inactive credential `k2`. -/
theorem runTest_partial_batch_witness :
    (runTest envFx stEmpty (optsFx [mcK "k1", mcK "k2", mcK "k3"] false)).1.map
        (fun rs => rs.map (fun r => decide (r.id = "")))
      = .ok [false, true, false]
    ∧ (runTest envFx stEmpty
        (optsFx [mcK "k1", mcK "k2", mcK "k3"] false)).2.runs.length = 2 := by
  obtain ⟨r1, r3, stEnd, heq, hne1, hne3, hlen⟩ :=
    runTest_partial_batch envFx stEmpty
      (optsFx [mcK "k1", mcK "k2", mcK "k3"] false) testFx
      (mcK "k1") (mcK "k2") (mcK "k3") rfl rfl rfl rfl rfl rfl
      (by intro r hr; simp [stEmpty] at hr) (by decide) (by decide) (by decide)
  constructor
  · rw [heq]
    show Except.ok ([r1, keyNotFoundResult (mcK "k2"), r3].map
      (fun r => decide (r.id = ""))) = .ok [false, true, false]
    simp [keyNotFoundResult, decide_eq_false hne1, decide_eq_false hne3]
  · rw [heq]
    exact hlen

/-- C10: `runTest` performs the admission rate check even for dry runs
— the counter is incremented and, when already exhausted, the whole call
aborts with the rate-limit error and creates nothing; when admission
passes, a dry run still consumes exactly one unit of rate budget.  By
contrast, `runAdHocPrompt` skips the rate check entirely for dry runs:
it never returns the rate-limit error and leaves the table untouched. -/
theorem rateLimit_admission_contrast :
    (∀ (env : Env) (st : St) (o : RunOptions),
        o.isDryRun = true →
        10 ≤ rateCount st.rate o.userId env.windowKey →
        (runTest env st o).1
          = .error "Rate limit exceeded. Please wait a minute before running more tests."
        ∧ rateCount (runTest env st o).2.rate o.userId env.windowKey
          = rateCount st.rate o.userId env.windowKey + 1
        ∧ (runTest env st o).2.runs = st.runs)
    ∧ (∀ (env : Env) (st : St) (o : RunOptions) (test : TestRow),
        o.isDryRun = true →
        rateCount st.rate o.userId env.windowKey + 1 ≤ 10 →
        env.tests.find? (fun t => t.id == o.testId) = some test →
        test.userId = o.userId →
        (runTest env st o).1.isOk = true
        ∧ rateCount (runTest env st o).2.rate o.userId env.windowKey
          = rateCount st.rate o.userId env.windowKey + 1)
    ∧ (∀ (env : Env) (st : St) (userId prompt : String) (mc : ModelConfig),
        (runAdHocPrompt env st userId prompt mc true).1.isOk = true
        ∧ (runAdHocPrompt env st userId prompt mc true).2.rate = st.rate) := by
  refine ⟨?_, ?_, ?_⟩
  · intro env st o hdry hcnt
    have hallow : (checkRateLimit st.rate o.userId env.windowKey
        false).1.allowed = false := by
      rw [checkRateLimit_allowed]
      simp only [decide_eq_false_iff_not]
      omega
    rw [runTest]
    simp only [hallow, Bool.not_false, if_true]
    exact ⟨trivial, checkRateLimit_count st.rate o.userId env.windowKey, trivial⟩
  · intro env st o test hdry hcnt hfind huser
    have hallow : (checkRateLimit st.rate o.userId env.windowKey
        false).1.allowed = true := by
      rw [checkRateLimit_allowed]
      simp only [decide_eq_true_eq]
      exact hcnt
    rw [runTest]
    simp only [hallow, Bool.not_true, Bool.false_eq_true, if_false, hfind]
    rw [if_neg (by simp [huser])]
    obtain ⟨produced, stEnd, heq, hcalls, hrateEnd, hlen, hmem⟩ :=
      runLoop_dry env o test
        (substituteVariables test.basePrompt (mergeVars test.vars o.vars))
        (mergeVars test.vars o.vars) ("batch_" ++ env.batchIdSeed)
        (keysFor env o) hdry
        (List.flatten (List.replicate o.batchCount o.modelConfigs)) [] 0
        { st with rate := (checkRateLimit st.rate o.userId env.windowKey false).2 }
    rw [heq]
    constructor
    · rfl
    · rw [hrateEnd]
      exact checkRateLimit_count st.rate o.userId env.windowKey
  · intro env st userId prompt mc
    constructor
    · rw [runAdHocPrompt]
      cases hk : env.apiKeys.find? (fun k =>
          k.id == mc.apiKeyId && k.userId == userId && k.isActive) with
      | none => rfl
      | some apiKey => rfl
    · rw [runAdHocPrompt]
      cases hk : env.apiKeys.find? (fun k =>
          k.id == mc.apiKeyId && k.userId == userId && k.isActive) with
      | none => rfl
      | some apiKey =>
          show (executeRun env st.nextRunId prompt mc apiKey none none true
            { rate := st.rate, runs := st.runs ++
                [{ id := st.nextRunId, userId := userId, testId := none,
                   apiKeyId := mc.apiKeyId, provider := mc.provider,
                   model := mc.model, prompt := prompt, inputVariables := [],
                   statusHistory := ["pending"], batchId := none,
                   batchIndex := none, isDryRun := true, output := none,
                   errorMessage := none, latencyMs := none, inputTokens := none,
                   outputTokens := none, totalTokens := none,
                   tokensEstimated := none, estimatedCost := none,
                   costEstimated := none, passed := none,
                   validationNotes := none }],
              nextRunId := st.nextRunId + 1,
              adapterCalls := st.adapterCalls }).2.rate = st.rate
          rw [executeRun_rate]

/-- Witness for C10 at the fixture store: counter at 99 — the dry-run
`runTest` aborts with the rate error while the dry-run ad-hoc call
proceeds and leaves the counter untouched. -/
theorem rateLimit_admission_contrast_witness :
    (runTest envFx (stRate 99) (optsFx [mcK "k1"] true)).1
      = .error "Rate limit exceeded. Please wait a minute before running more tests."
    ∧ (runTest envFx stEmpty (optsFx [mcK "k1"] true)).1.isOk = true
    ∧ (runAdHocPrompt envFx (stRate 99) "u1" "hello" (mcK "k1") true).1.isOk
      = true
    ∧ (runAdHocPrompt envFx (stRate 99) "u1" "hello" (mcK "k1") true).2.rate
      = (stRate 99).rate :=
  ⟨(rateLimit_admission_contrast.1 envFx (stRate 99) (optsFx [mcK "k1"] true)
      rfl (by decide)).1,
   (rateLimit_admission_contrast.2.1 envFx stEmpty (optsFx [mcK "k1"] true)
      testFx rfl (by decide) rfl rfl).1,
   (rateLimit_admission_contrast.2.2 envFx (stRate 99) "u1" "hello"
      (mcK "k1")).1,
   (rateLimit_admission_contrast.2.2 envFx (stRate 99) "u1" "hello"
      (mcK "k1")).2⟩

end AILab
